import Mathlib

/-!
Verification development for the structured-logging / data-sanitization /
IP-tracking core of the repository.

The definitions below are shallow embeddings of the TypeScript sources:

* `libs/shared/ts/logger/src/lib/masking-policy.ts` — masking rules, policy;
* `libs/shared/ts/logger/src/lib/data-sanitizer.ts` — DFS sanitizer (v1);
* `libs/shared/ts/logger/src/lib/data-santizer2.ts` — strategy-pattern sanitizer (v2);
* `libs/shared/ts/logger/src/lib/winston-logger.service.ts` and
  `json-logger.service.ts` — log emission;
* the `IPTracker` class (IP tracking & security monitoring).

JavaScript `RegExp` patterns are embedded as an executable backtracking
matcher (`mtch`) with JS semantics: leftmost match, greedy quantifiers,
word boundaries, global replacement.  Machine reals never appear in the
guarded logic; counters are `Nat`, timestamps (`Date.getTime()`) are `Int`
milliseconds.  Recursive traversals carry an explicit `fuel : Nat` that is
strictly larger than the deepest possible recursion from every entry point,
so the `fuel = 0` fallbacks are unreachable from the exported definitions.
-/

set_option maxHeartbeats 1000000

/-! ## Regular-expression engine (JS semantics for the default rule patterns) -/

/-- JS word characters `[A-Za-z0-9_]`, the class used by `\b`. -/
def isWordChar (c : Char) : Bool := c.isAlphanum || c == '_'

/-- Pattern AST covering the constructs appearing in `DEFAULT_MASKING_RULES`:
character classes, literals, concatenation, greedy `?`, greedy counted
repetition `{lo,hi}` / `{lo,}`, and the word boundary `\b`. -/
inductive Pat where
  | eps
  | lit (c : Char)
  | cls (p : Char → Bool)
  | cat (p q : Pat)
  | opt (p : Pat)
  | wordB
  | rep (lo : Nat) (hi : Option Nat) (p : Pat)

/-- Is there a word boundary between the previous character and the rest? -/
def wordBoundaryAt (prev : Option Char) (cs : List Char) : Bool :=
  let pw := match prev with | none => false | some c => isWordChar c
  let nw := match cs with | [] => false | c :: _ => isWordChar c
  pw != nw

/-- Backtracking matcher.  Returns the list of possible
`(last consumed character, remaining suffix)` outcomes in JS preference
order (greedy alternatives first); the head is the match JS commits to.
`fuel` bounds recursion depth and is sized generously by the callers. -/
def mtch : Nat → Pat → Option Char → List Char → List (Option Char × List Char)
  | 0, _, _, _ => []
  | _ + 1, .eps, pc, cs => [(pc, cs)]
  | _ + 1, .lit c, _, cs =>
    match cs with
    | [] => []
    | d :: rest => if d == c then [(some d, rest)] else []
  | _ + 1, .cls p, _, cs =>
    match cs with
    | [] => []
    | d :: rest => if p d then [(some d, rest)] else []
  | _ + 1, .wordB, pc, cs => if wordBoundaryAt pc cs then [(pc, cs)] else []
  | fuel + 1, .cat p q, pc, cs =>
    ((mtch fuel p pc cs).map (fun pr => mtch fuel q pr.1 pr.2)).flatten
  | fuel + 1, .opt p, pc, cs => mtch fuel p pc cs ++ [(pc, cs)]
  | fuel + 1, .rep lo hi p, pc, cs =>
    let stop := if lo == 0 then [(pc, cs)] else []
    let go :=
      if hi == some 0 then []
      else
        ((mtch fuel p pc cs).map (fun pr =>
          if pr.2.length < cs.length then
            mtch fuel (.rep (lo - 1) (hi.map (fun h => h - 1)) p) pr.1 pr.2
          else [])).flatten
    go ++ stop

/-- Size bound used to pick enough fuel for `mtch`. -/
def patSize : Pat → Nat
  | .eps => 1
  | .lit _ => 1
  | .cls _ => 1
  | .wordB => 1
  | .cat p q => patSize p + patSize q + 1
  | .opt p => patSize p + 1
  | .rep _ _ p => patSize p + 2

/-- The match JS commits to at the current position, if any. -/
def firstMatchAt (p : Pat) (pc : Option Char) (cs : List Char) :
    Option (Option Char × List Char) :=
  (mtch ((patSize p + 2) * (cs.length + 2)) p pc cs).head?

/-- Scan for a match at any position (the semantics of `RegExp.test`). -/
def testScan : Nat → Pat → Option Char → List Char → Bool
  | 0, _, _, _ => false
  | fuel + 1, p, pc, cs =>
    match firstMatchAt p pc cs with
    | some _ => true
    | none =>
      match cs with
      | [] => false
      | c :: rest => testScan fuel p (some c) rest

/-- `pattern.test(s)` for an embedded pattern. -/
def patTest (p : Pat) (s : String) : Bool :=
  testScan (s.data.length + 1) p none s.data

/-- Global replacement scan: at each position take the committed match,
emit the replacement, and continue after the match (JS
`String.prototype.replace` with a `g` regular expression). -/
def replaceScan : Nat → Pat → List Char → Option Char → List Char → List Char
  | 0, _, _, _, cs => cs
  | fuel + 1, p, repl, pc, cs =>
    match firstMatchAt p pc cs with
    | some (pc', rest) =>
      if rest.length < cs.length then
        repl ++ replaceScan fuel p repl pc' rest
      else
        match cs with
        | [] => repl
        | c :: rest' => repl ++ [c] ++ replaceScan fuel p repl (some c) rest'
    | none =>
      match cs with
      | [] => []
      | c :: rest => c :: replaceScan fuel p repl (some c) rest

/-- `s.replace(p, repl)` with global semantics. -/
def patReplace (p : Pat) (repl : String) (s : String) : String :=
  String.mk (replaceScan (s.data.length + 1) p repl.data none s.data)

/-- ASCII lowercasing of a character list (`String.prototype.toLowerCase`
on the identifiers appearing in this code base). -/
def lowerList (cs : List Char) : List Char := cs.map Char.toLower

/-- Case-insensitive global replacement of a literal pattern: the
compilation `new RegExp(literal, modifiers gi)` applied to a literal with no
metacharacters, as done for string-valued `MaskingRule.pattern`s. -/
def replaceLitScan : Nat → List Char → List Char → List Char → List Char
  | 0, _, _, cs => cs
  | fuel + 1, pat, repl, cs =>
    if pat.isEmpty then cs
    else if (lowerList pat).isPrefixOf (lowerList cs) then
      repl ++ replaceLitScan fuel pat repl (cs.drop pat.length)
    else
      match cs with
      | [] => []
      | c :: rest => c :: replaceLitScan fuel pat repl rest

/-- Does `needle` occur inside `hay` (`String.prototype.includes`)? -/
def hasSublist (needle : List Char) : List Char → Bool
  | [] => needle.isEmpty
  | c :: rest => needle.isPrefixOf (c :: rest) || hasSublist needle rest

/-! ## Masking policy (`masking-policy.ts`) -/

/-- `MaskingRule.pattern : RegExp | string`. -/
inductive RulePattern where
  | regex (p : Pat)
  | literal (s : String)

/-- `MaskingRule`. -/
structure MaskingRule where
  name : String
  pattern : RulePattern
  replacement : String
  enabled : Bool

/-- `MaskingPolicy.mode`. -/
inductive PolicyMode where
  | development
  | production
deriving DecidableEq

/-- `MaskingPolicy`. -/
structure MaskingPolicy where
  mode : PolicyMode
  enabled : Bool
  strictMode : Bool
  rules : List MaskingRule
  customRules : List MaskingRule := []

/-- Character class `[a-zA-Z0-9._-]` (email local part and domain). -/
def emailChar (c : Char) : Bool := c.isAlphanum || c == '.' || c == '_' || c == '-'

/-- Character class `[a-zA-Z0-9_-]` (email TLD, API keys, JWT segments). -/
def keyChar (c : Char) : Bool := c.isAlphanum || c == '_' || c == '-'

/-- JS `\s` restricted to the ASCII whitespace characters. -/
def jsSpace (c : Char) : Bool :=
  c == ' ' || c == '\t' || c == '\n' || c == '\r' || c == '\x0B' || c == '\x0C'

/-- Character class `[\d\s()-]` (phone rule). -/
def phoneChar (c : Char) : Bool :=
  c.isDigit || jsSpace c || c == '(' || c == ')' || c == '-'

/-- Character class `[\s-]` (credit-card separators). -/
def sepChar (c : Char) : Bool := jsSpace c || c == '-'

/-- Character class `\d`. -/
def digitPat : Pat := .cls Char.isDigit

/-- Right fold of a pattern list into a concatenation. -/
def seqPat (l : List Pat) : Pat := l.foldr Pat.cat Pat.eps

/-- `/([a-zA-Z0-9._-]+@[a-zA-Z0-9._-]+\.[a-zA-Z0-9_-]+)/gi`. -/
def emailPat : Pat :=
  seqPat [.rep 1 none (.cls emailChar), .lit '@', .rep 1 none (.cls emailChar),
    .lit '.', .rep 1 none (.cls keyChar)]

/-- `/(\+?[\d\s()-]{10,})/g`. -/
def phonePat : Pat :=
  seqPat [.opt (.lit '+'), .rep 10 none (.cls phoneChar)]

/-- `/\b\d{4}[\s-]?\d{4}[\s-]?\d{4}[\s-]?\d{4}\b/g`. -/
def creditCardPat : Pat :=
  seqPat [.wordB, .rep 4 (some 4) digitPat, .opt (.cls sepChar),
    .rep 4 (some 4) digitPat, .opt (.cls sepChar),
    .rep 4 (some 4) digitPat, .opt (.cls sepChar),
    .rep 4 (some 4) digitPat, .wordB]

/-- `/\b\d{3}-\d{2}-\d{4}\b/g`. -/
def ssnPat : Pat :=
  seqPat [.wordB, .rep 3 (some 3) digitPat, .lit '-', .rep 2 (some 2) digitPat,
    .lit '-', .rep 4 (some 4) digitPat, .wordB]

/-- `/[a-zA-Z0-9_-]{32,}/g`. -/
def apiKeyPat : Pat := .rep 32 none (.cls keyChar)

/-- `/eyJ[a-zA-Z0-9_-]*\.eyJ[a-zA-Z0-9_-]*\.[a-zA-Z0-9_-]*/g`. -/
def jwtPat : Pat :=
  seqPat [.lit 'e', .lit 'y', .lit 'J', .rep 0 none (.cls keyChar), .lit '.',
    .lit 'e', .lit 'y', .lit 'J', .rep 0 none (.cls keyChar), .lit '.',
    .rep 0 none (.cls keyChar)]

/-- `/\b(?:\d{1,3}\.){3}\d{1,3}\b/g` (the disabled ipAddress rule). -/
def ipAddressPat : Pat :=
  seqPat [.wordB, .rep 3 (some 3) (seqPat [.rep 1 (some 3) digitPat, .lit '.']),
    .rep 1 (some 3) digitPat, .wordB]

/-- `/\b\d{9,12}\b/g`. -/
def nationalIdPat : Pat := seqPat [.wordB, .rep 9 (some 12) digitPat, .wordB]

/-- `/\b\d{10,20}\b/g`. -/
def bankAccountPat : Pat := seqPat [.wordB, .rep 10 (some 20) digitPat, .wordB]

/-- `DEFAULT_MASKING_RULES` of `masking-policy.ts`, in source order;
`ipAddress` is present but disabled. -/
def DEFAULT_MASKING_RULES : List MaskingRule :=
  [ { name := "email", pattern := .regex emailPat,
      replacement := "***@***.***", enabled := true },
    { name := "phone", pattern := .regex phonePat,
      replacement := "***-***-****", enabled := true },
    { name := "creditCard", pattern := .regex creditCardPat,
      replacement := "****-****-****-****", enabled := true },
    { name := "ssn", pattern := .regex ssnPat,
      replacement := "***-**-****", enabled := true },
    { name := "password", pattern := .literal "password",
      replacement := "********", enabled := true },
    { name := "apiKey", pattern := .regex apiKeyPat,
      replacement := "********************************", enabled := true },
    { name := "jwt", pattern := .regex jwtPat,
      replacement := "eyJ***.eyJ***.***", enabled := true },
    { name := "ipAddress", pattern := .regex ipAddressPat,
      replacement := "***.***.***.***", enabled := false },
    { name := "nationalId", pattern := .regex nationalIdPat,
      replacement := "***********", enabled := true },
    { name := "bankAccount", pattern := .regex bankAccountPat,
      replacement := "**********", enabled := true } ]

/-- `SENSITIVE_FIELD_NAMES`. -/
def SENSITIVE_FIELD_NAMES : List String :=
  ["password", "passwd", "pwd", "secret", "token", "apiKey", "api_key",
   "accessToken", "access_token", "refreshToken", "refresh_token",
   "privateKey", "private_key", "creditCard", "credit_card", "cardNumber",
   "card_number", "cvv", "cvc", "ssn", "socialSecurity", "social_security",
   "nationalId", "national_id", "passport", "drivingLicense",
   "driving_license", "bankAccount", "bank_account", "accountNumber",
   "account_number", "routingNumber", "routing_number", "pin", "otp",
   "verificationCode", "verification_code"]

/-- `createMaskingPolicy(env)`; the embedder passes `env` explicitly. -/
def createMaskingPolicy (env : String) : MaskingPolicy :=
  let isProduction := env == "production"
  { mode := if isProduction then .production else .development,
    enabled := isProduction,
    strictMode := false,
    rules := DEFAULT_MASKING_RULES,
    customRules := [] }

/-! ## String-level sanitization (shared by both `DataSanitizer` files) -/

/-- One step of the rule sweep: `sanitized.replace(rule.pattern, rule.replacement)`
for a `RegExp` pattern, and the `new RegExp(pattern, modifiers gi)` sweep for a
string pattern. -/
def applyRule (r : MaskingRule) (s : String) : String :=
  match r.pattern with
  | .regex p => patReplace p r.replacement s
  | .literal lit =>
    String.mk (replaceLitScan (s.data.length + 1) lit.data r.replacement.data s.data)

/-- `DataSanitizer.sanitizeString`: the enabled rules (built-ins then custom)
applied left to right; later rules see the output of earlier rules. -/
def sanitizeString (pol : MaskingPolicy) (s : String) : String :=
  ((pol.rules ++ pol.customRules).filter (fun r => r.enabled)).foldl
    (fun acc r => applyRule r acc) s

/-- `DataSanitizer.isSensitiveField`: the lowercased field name contains a
lowercased sensitive-field name. -/
def isSensitiveField (fieldName : String) : Bool :=
  SENSITIVE_FIELD_NAMES.any
    (fun sens => hasSublist (lowerList sens.data) (lowerList fieldName.data))

/-- `DataSanitizer.containsPIIInString`: only rules whose pattern is a
`RegExp` are tested; string-pattern (literal) rules are skipped. -/
def containsPIIInString (pol : MaskingPolicy) (s : String) : Bool :=
  ((pol.rules ++ pol.customRules).filter (fun r => r.enabled)).any
    (fun r =>
      match r.pattern with
      | .regex p => patTest p s
      | .literal _ => false)

/-! ## IP tracker (`IPTracker`) -/

/-- `IPAccessLog`; `timestamp` is `Date.getTime()` in milliseconds. -/
structure IPAccessLog where
  ip : String
  timestamp : Int
  endpoint : String
  method : String
  statusCode : Int
  userId : Option String := none
  userAgent : Option String := none
  success : Bool
  reason : Option String := none
deriving DecidableEq

/-- `IPStatistics`; the `Set` fields are kept in JS insertion order. -/
structure IPStatistics where
  ip : String
  totalRequests : Nat
  failedRequests : Nat
  successRequests : Nat
  firstSeen : Int
  lastSeen : Int
  endpoints : List String
  userAgents : List String
  userIds : List String
  suspiciousScore : Nat
deriving DecidableEq

/-- `SecurityAlert.type`. -/
inductive AlertType where
  | bruteForce
  | rateLimitExceeded
  | suspiciousIP
  | geoAnomaly
  | newIPForUser
  | multipleFailedAttempts
deriving DecidableEq

/-- `SecurityAlert.severity`. -/
inductive AlertSeverity where
  | low
  | medium
  | high
  | critical
deriving DecidableEq

/-- Values appearing in `SecurityAlert.metadata`. -/
inductive MetaVal where
  | num (n : Nat)
  | strList (l : List String)
deriving DecidableEq

/-- `SecurityAlert`.  The wall-clock `timestamp: new Date()` field is not
modelled (no claim mentions it); everything else is carried verbatim. -/
structure SecurityAlert where
  type : AlertType
  severity : AlertSeverity
  ip : String
  userId : Option String := none
  description : String
  metadata : List (String × MetaVal) := []
  shouldBlock : Option Bool := none
deriving DecidableEq

/-- JS `Set.add` on strings: append if absent, keeping insertion order. -/
def setAddStr (l : List String) (x : String) : List String :=
  if l.contains x then l else l ++ [x]

/-- JS `Set.delete` on strings. -/
def setDeleteStr (l : List String) (x : String) : List String :=
  l.filter (fun y => y != x)

/-- JS `Map.set` on string keys: update in place keeping the original
position, or append a new binding. -/
def mapSetStr {α : Type} (l : List (String × α)) (k : String) (v : α) :
    List (String × α) :=
  match l with
  | [] => [(k, v)]
  | (k', v') :: rest =>
    if k' == k then (k', v) :: rest else (k', v') :: mapSetStr rest k v

/-- Tracker configuration constants. -/
def MAX_LOGS : Nat := 10000

/-- `FAILED_LOGIN_THRESHOLD`. -/
def FAILED_LOGIN_THRESHOLD : Nat := 5

/-- `RATE_LIMIT_WINDOW` (milliseconds). -/
def RATE_LIMIT_WINDOW : Int := 60000

/-- `RATE_LIMIT_MAX`. -/
def RATE_LIMIT_MAX : Nat := 100

/-- `calculateSuspiciousScore`.  The floating-point comparisons
`failed/total > 0.5` and `failed/total > 0.3` are encoded as the exact
rational comparisons (`total ≥ 1` holds at the call site). -/
def calculateSuspiciousScore (stats : IPStatistics) : Nat :=
  let score : Nat := 0
  let score := if 2 * stats.failedRequests > stats.totalRequests then score + 30
    else if 10 * stats.failedRequests > 3 * stats.totalRequests then score + 15
    else score
  let score := if stats.userAgents.length > 10 then score + 20 else score
  let score := if stats.userIds.length > 5 then score + 25 else score
  let score := if stats.totalRequests > 1000 then score + 15 else score
  let score := if stats.endpoints.length > 50 then score + 10 else score
  min score 100

/-- The mutable fields of the `IPTracker` class.  `consoleWarnings` records
the `console.warn` output of `blockIP` (the only observable carrier of the
block reason). -/
structure TrackerState where
  ipStats : List (String × IPStatistics) := []
  accessLogs : List IPAccessLog := []
  blockedIPs : List String := []
  whitelistedIPs : List String := []
  userIPHistory : List (String × List String) := []
  consoleWarnings : List String := []
deriving DecidableEq

/-- Freshly constructed tracker. -/
def initialTracker : TrackerState := {}

/-- `blockIP(ip, reason)`: add to the blocked set and warn. -/
def blockIP (st : TrackerState) (ip : String) (reason : String) : TrackerState :=
  { st with
    blockedIPs := setAddStr st.blockedIPs ip,
    consoleWarnings :=
      st.consoleWarnings ++ ["[SECURITY] Blocked IP " ++ ip ++ ": " ++ reason] }

/-- `unblockIP(ip)` (its `console.info` output is not modelled). -/
def unblockIP (st : TrackerState) (ip : String) : TrackerState :=
  { st with blockedIPs := setDeleteStr st.blockedIPs ip }

/-- `whitelistIP(ip)`: also removes any prior block. -/
def whitelistIP (st : TrackerState) (ip : String) : TrackerState :=
  { st with
    whitelistedIPs := setAddStr st.whitelistedIPs ip,
    blockedIPs := setDeleteStr st.blockedIPs ip }

/-- `removeFromWhitelist(ip)`. -/
def removeFromWhitelist (st : TrackerState) (ip : String) : TrackerState :=
  { st with whitelistedIPs := setDeleteStr st.whitelistedIPs ip }

/-- `isBlocked(ip)`. -/
def isBlocked (st : TrackerState) (ip : String) : Bool :=
  st.blockedIPs.contains ip

/-- `isWhitelisted(ip)`. -/
def isWhitelisted (st : TrackerState) (ip : String) : Bool :=
  st.whitelistedIPs.contains ip

/-- `getIPStats(ip)`. -/
def getIPStats (st : TrackerState) (ip : String) : Option IPStatistics :=
  List.lookup ip st.ipStats

/-- The fetch-or-create step of `updateStatistics`. -/
def statsBase (st : TrackerState) (log : IPAccessLog) : IPStatistics :=
  match List.lookup log.ip st.ipStats with
  | some s => s
  | none =>
    { ip := log.ip, totalRequests := 0, failedRequests := 0,
      successRequests := 0, firstSeen := log.timestamp,
      lastSeen := log.timestamp, endpoints := [], userAgents := [],
      userIds := [], suspiciousScore := 0 }

/-- The `IPStatistics` value written back by `updateStatistics(log)`, with
the field updates applied in source order.  JS truthiness: the
`if (log.userAgent)` and `if (log.userId)` guards are false both for
`undefined` and for `""`. -/
def statsAfter (st : TrackerState) (log : IPAccessLog) : IPStatistics :=
  let stats := statsBase st log
  let stats :=
    { stats with
      totalRequests := stats.totalRequests + 1,
      lastSeen := log.timestamp,
      endpoints := setAddStr stats.endpoints log.endpoint }
  let stats :=
    match log.userAgent with
    | some ua =>
      if ua.isEmpty then stats
      else { stats with userAgents := setAddStr stats.userAgents ua }
    | none => stats
  let stats :=
    match log.userId with
    | some uid =>
      if uid.isEmpty then stats
      else { stats with userIds := setAddStr stats.userIds uid }
    | none => stats
  let stats :=
    if log.success then { stats with successRequests := stats.successRequests + 1 }
    else { stats with failedRequests := stats.failedRequests + 1 }
  { stats with suspiciousScore := calculateSuspiciousScore stats }

/-- The `userIPHistory` map after `updateStatistics(log)` (the `log.ip`
insertion happens here, before any probe runs). -/
def historyAfter (st : TrackerState) (log : IPAccessLog) :
    List (String × List String) :=
  match log.userId with
  | some uid =>
    if uid.isEmpty then st.userIPHistory
    else
      mapSetStr st.userIPHistory uid
        (setAddStr ((List.lookup uid st.userIPHistory).getD []) log.ip)
  | none => st.userIPHistory

/-- `updateStatistics(log)`. -/
def updateStatistics (st : TrackerState) (log : IPAccessLog) : TrackerState :=
  { st with
    ipStats := mapSetStr st.ipStats log.ip (statsAfter st log),
    userIPHistory := historyAfter st log }

/-- `checkBruteForce(log)`; may auto-block, hence returns the new state. -/
def checkBruteForce (st : TrackerState) (log : IPAccessLog) :
    List SecurityAlert × TrackerState :=
  if log.success then ([], st)
  else
    let recentFailed := st.accessLogs.filter
      (fun l => l.ip == log.ip && !l.success &&
        log.timestamp - l.timestamp < 300000)
    if FAILED_LOGIN_THRESHOLD ≤ recentFailed.length then
      let alert : SecurityAlert :=
        { type := .bruteForce, severity := .high, ip := log.ip,
          userId := log.userId,
          description := "Brute force detected: " ++
            toString recentFailed.length ++ " failed attempts from " ++ log.ip,
          metadata := [("failedAttempts", .num recentFailed.length),
            ("endpoints", .strList (recentFailed.map (fun l => l.endpoint)))],
          shouldBlock :=
            some (decide (FAILED_LOGIN_THRESHOLD * 2 ≤ recentFailed.length)) }
      let st' :=
        if FAILED_LOGIN_THRESHOLD * 2 ≤ recentFailed.length then
          blockIP st log.ip
            ("Brute force: " ++ toString recentFailed.length ++
              " failed attempts")
        else st
      ([alert], st')
    else ([], st)

/-- `checkRateLimit(log)` (read-only). -/
def checkRateLimit (st : TrackerState) (log : IPAccessLog) :
    List SecurityAlert :=
  let recentRequests := st.accessLogs.filter
    (fun l => l.ip == log.ip && log.timestamp - l.timestamp < RATE_LIMIT_WINDOW)
  if RATE_LIMIT_MAX ≤ recentRequests.length then
    [{ type := .rateLimitExceeded, severity := .medium, ip := log.ip,
       description := "Rate limit exceeded: " ++
         toString recentRequests.length ++ " requests in 1 minute from " ++
         log.ip,
       metadata := [("requestCount", .num recentRequests.length),
         ("limit", .num RATE_LIMIT_MAX)] }]
  else []

/-- `checkGeoAnomaly(log)`: the geolocation hook is absent, no alert. -/
def checkGeoAnomaly (_st : TrackerState) (_log : IPAccessLog) :
    List SecurityAlert := []

/-- `checkNewIPForUser(log)` (read-only; note that `trackAccess` runs it
after `updateStatistics` has already inserted `log.ip` into the history). -/
def checkNewIPForUser (st : TrackerState) (log : IPAccessLog) :
    List SecurityAlert :=
  match log.userId with
  | some uid =>
    if !uid.isEmpty && log.success then
      match List.lookup uid st.userIPHistory with
      | some userIPs =>
        if 0 < userIPs.length && !userIPs.contains log.ip then
          [{ type := .newIPForUser, severity := .low, ip := log.ip,
             userId := some uid,
             description := "User " ++ uid ++ " logging in from new IP " ++
               log.ip,
             metadata := [("previousIPs", .strList userIPs)] }]
        else []
      | none => []
    else []
  | none => []

/-- `trackAccess(log)`: the ingestion pipeline in source order —
statistics update, ring append (oldest shifted on overflow), blocked-IP
early return, whitelist early return, then the four probes. -/
def trackAccess (st : TrackerState) (log : IPAccessLog) :
    List SecurityAlert × TrackerState :=
  let st := updateStatistics st log
  let logs := st.accessLogs ++ [log]
  let logs := if MAX_LOGS < logs.length then logs.drop 1 else logs
  let st := { st with accessLogs := logs }
  if st.blockedIPs.contains log.ip then
    ([{ type := .suspiciousIP, severity := .critical, ip := log.ip,
        description := "Blocked IP " ++ log.ip ++ " attempted access",
        shouldBlock := some true }], st)
  else if st.whitelistedIPs.contains log.ip then
    ([], st)
  else
    let bruteSt := checkBruteForce st log
    let rate := checkRateLimit bruteSt.2 log
    let geo := checkGeoAnomaly bruteSt.2 log
    let newIP := checkNewIPForUser bruteSt.2 log
    (bruteSt.1 ++ rate ++ geo ++ newIP, bruteSt.2)

/-- Feed a list of events through `trackAccess` from a fresh tracker. -/
def runTracker (evs : List IPAccessLog) : TrackerState :=
  evs.foldl (fun st e => (trackAccess st e).2) initialTracker
/-! ## Helper lemmas about the tracker -/

/-- A successful lookup exhibits a member of the association list. -/
theorem lookup_mem {α : Type} (k : String) (l : List (String × α)) (v : α)
    (h : List.lookup k l = some v) : (k, v) ∈ l := by
  induction l with
  | nil => simp [List.lookup] at h
  | cons p rest ih =>
    rw [List.lookup] at h
    split at h
    · rename_i hbeq
      cases h
      have hk : k = p.1 := beq_iff_eq.mp hbeq
      cases p
      subst hk
      exact List.mem_cons_self _ _
    · exact List.mem_cons_of_mem _ (ih h)

/-- Every value of `mapSetStr l k v` is `v` or a value already in `l`. -/
theorem mapSetStr_val_mem {α : Type} (l : List (String × α)) (k : String)
    (v : α) : ∀ p ∈ mapSetStr l k v, p.2 = v ∨ p ∈ l := by
  induction l with
  | nil =>
    intro p hp
    rw [mapSetStr] at hp
    rcases List.mem_singleton.mp hp with h
    left; rw [h]
  | cons q rest ih =>
    intro p hp
    rw [mapSetStr] at hp
    split at hp
    · rcases List.mem_cons.mp hp with h | h
      · left; rw [h]
      · right; exact List.mem_cons_of_mem _ h
    · rcases List.mem_cons.mp hp with h | h
      · right; rw [h]; exact List.mem_cons_self _ _
      · rcases ih p h with h' | h'
        · left; exact h'
        · right; exact List.mem_cons_of_mem _ h'

/-- `setAddStr` always yields a set containing the added element. -/
theorem setAddStr_contains (l : List String) (x : String) :
    (setAddStr l x).contains x = true := by
  rw [setAddStr]
  split
  · assumption
  · simp

/-- `updateStatistics` leaves the ring, the block/allow lists and the
console untouched. -/
theorem updateStatistics_frame (st : TrackerState) (e : IPAccessLog) :
    (updateStatistics st e).accessLogs = st.accessLogs ∧
    (updateStatistics st e).blockedIPs = st.blockedIPs ∧
    (updateStatistics st e).whitelistedIPs = st.whitelistedIPs ∧
    (updateStatistics st e).consoleWarnings = st.consoleWarnings :=
  ⟨rfl, rfl, rfl, rfl⟩

/-- `blockIP` changes only the blocked set and the console. -/
theorem blockIP_frame (st : TrackerState) (ip reason : String) :
    (blockIP st ip reason).ipStats = st.ipStats ∧
    (blockIP st ip reason).accessLogs = st.accessLogs ∧
    (blockIP st ip reason).whitelistedIPs = st.whitelistedIPs ∧
    (blockIP st ip reason).userIPHistory = st.userIPHistory :=
  ⟨rfl, rfl, rfl, rfl⟩

/-- `checkBruteForce` can only add to the blocked set and the console. -/
theorem checkBruteForce_frame (st : TrackerState) (e : IPAccessLog) :
    (checkBruteForce st e).2.ipStats = st.ipStats ∧
    (checkBruteForce st e).2.accessLogs = st.accessLogs ∧
    (checkBruteForce st e).2.whitelistedIPs = st.whitelistedIPs ∧
    (checkBruteForce st e).2.userIPHistory = st.userIPHistory := by
  rw [checkBruteForce]
  split
  · exact ⟨rfl, rfl, rfl, rfl⟩
  · dsimp only
    split
    · split
      · exact ⟨rfl, rfl, rfl, rfl⟩
      · exact ⟨rfl, rfl, rfl, rfl⟩
    · exact ⟨rfl, rfl, rfl, rfl⟩

/-- The ring after `trackAccess`: append, then shift on overflow. -/
def ringAfter (st : TrackerState) (e : IPAccessLog) : List IPAccessLog :=
  if MAX_LOGS < (st.accessLogs ++ [e]).length then (st.accessLogs ++ [e]).drop 1
  else st.accessLogs ++ [e]

/-- State decomposition of `trackAccess`. -/
theorem trackAccess_state (st : TrackerState) (e : IPAccessLog) :
    (trackAccess st e).2.accessLogs = ringAfter st e ∧
    (trackAccess st e).2.ipStats = mapSetStr st.ipStats e.ip (statsAfter st e) ∧
    (trackAccess st e).2.userIPHistory = historyAfter st e ∧
    (trackAccess st e).2.whitelistedIPs = st.whitelistedIPs := by
  rw [trackAccess]
  dsimp only
  split
  · exact ⟨rfl, rfl, rfl, rfl⟩
  · split
    · exact ⟨rfl, rfl, rfl, rfl⟩
    · have hf := checkBruteForce_frame
        { updateStatistics st e with accessLogs := ringAfter st e } e
      exact ⟨hf.2.1, hf.1, hf.2.2.2, hf.2.2.1⟩

/-- The tracker state as seen by the probes inside `trackAccess` (statistics
updated, event appended to the ring). -/
def stRing (st : TrackerState) (e : IPAccessLog) : TrackerState :=
  { updateStatistics st e with accessLogs := ringAfter st e }

/-- On the non-blocked, non-whitelisted path, `trackAccess` returns the
probe alerts in order and the post-probe state. -/
theorem trackAccess_alerts_normal (st : TrackerState) (e : IPAccessLog)
    (hb : st.blockedIPs.contains e.ip = false)
    (hw : st.whitelistedIPs.contains e.ip = false) :
    (trackAccess st e).1 =
      (checkBruteForce (stRing st e) e).1 ++
      checkRateLimit (checkBruteForce (stRing st e) e).2 e ++
      checkGeoAnomaly (checkBruteForce (stRing st e) e).2 e ++
      checkNewIPForUser (checkBruteForce (stRing st e) e).2 e ∧
    (trackAccess st e).2 = (checkBruteForce (stRing st e) e).2 := by
  rw [trackAccess]
  dsimp only
  split
  · rename_i h
    have h' : st.blockedIPs.contains e.ip = true := h
    rw [hb] at h'
    simp at h'
  · split
    · rename_i h
      have h' : st.whitelistedIPs.contains e.ip = true := h
      rw [hw] at h'
      simp at h'
    · exact ⟨rfl, rfl⟩

/-- The count `checkBruteForce` computes for a failed event: failed ring
events from the same IP whose timestamp is less than five minutes before
`e.timestamp` (the freshly appended `e` included). -/
def bruteForceCount (st : TrackerState) (e : IPAccessLog) : Nat :=
  ((ringAfter st e).filter
    (fun l => l.ip == e.ip && !l.success &&
      e.timestamp - l.timestamp < 300000)).length

/-- The brute-force alert for a failed event counted `n` times. -/
def bruteAlert (st : TrackerState) (e : IPAccessLog) : SecurityAlert :=
  { type := .bruteForce, severity := .high, ip := e.ip, userId := e.userId,
    description := "Brute force detected: " ++
      toString (bruteForceCount st e) ++ " failed attempts from " ++ e.ip,
    metadata := [("failedAttempts", .num (bruteForceCount st e)),
      ("endpoints", .strList (((ringAfter st e).filter
        (fun l => l.ip == e.ip && !l.success &&
          e.timestamp - l.timestamp < 300000)).map (fun l => l.endpoint)))],
    shouldBlock := some (decide (10 ≤ bruteForceCount st e)) }

/-- `checkBruteForce` at the threshold: the alert is emitted, and the state
is auto-blocked exactly when the count reaches twice the threshold. -/
theorem checkBruteForce_fires (st : TrackerState) (e : IPAccessLog)
    (hf : e.success = false)
    (h5 : FAILED_LOGIN_THRESHOLD ≤ bruteForceCount st e) :
    (checkBruteForce (stRing st e) e).1 = [bruteAlert st e] ∧
    (checkBruteForce (stRing st e) e).2 =
      (if FAILED_LOGIN_THRESHOLD * 2 ≤ bruteForceCount st e then
        blockIP (stRing st e) e.ip
          ("Brute force: " ++ toString (bruteForceCount st e) ++
            " failed attempts")
      else stRing st e) := by
  rw [checkBruteForce]
  rw [hf]
  simp only [Bool.false_eq_true, if_false]
  have h5' : FAILED_LOGIN_THRESHOLD ≤
      (List.filter
        (fun l => l.ip == e.ip && !l.success &&
          decide (e.timestamp - l.timestamp < 300000))
        (stRing st e).accessLogs).length := h5
  rw [if_pos h5']
  exact ⟨rfl, rfl⟩

/-! ## Claim C1 -/

/-- First event of S6: user `u1` succeeds from `1.1.1.1`. -/
def c1ev1 : IPAccessLog :=
  { ip := "1.1.1.1", timestamp := 0, endpoint := "/login", method := "POST",
    statusCode := 200, userId := some "u1", userAgent := some "agent",
    success := true }

/-- Second event of S6: the same user succeeds from the new IP `2.2.2.2`. -/
def c1ev2 : IPAccessLog := { c1ev1 with ip := "2.2.2.2", timestamp := 60000 }

/-- C1, evaluated on the code at the failing input: after a successful
event for `u1` from `1.1.1.1`, a successful event from the new IP
`2.2.2.2` produces no alerts at all — `updateStatistics` inserts the new
IP into `userIPHistory` before `checkNewIPForUser` runs, so the
`newIPForUser` guard `!userIPs.has(log.ip)` is always false.  The IP is
added to the history, but the claimed alert is never emitted. -/
theorem C1_newIPForUser_code_eval :
    (trackAccess (trackAccess initialTracker c1ev1).2 c1ev2).1 = [] ∧
    List.lookup "u1"
        (trackAccess (trackAccess initialTracker c1ev1).2 c1ev2).2.userIPHistory
      = some ["1.1.1.1", "2.2.2.2"] := by decide

/-! ## Claim C3 -/

/-- A failed login event from `3.3.3.3`. -/
def c3cexEv (i : Nat) : IPAccessLog :=
  { ip := "3.3.3.3", timestamp := (i : Int) * 1000, endpoint := "/login",
    method := "POST", statusCode := 401, success := false }

/-- Whitelist then four failed events. -/
def c3cexState : TrackerState :=
  ((List.range 4).map c3cexEv).foldl (fun st e => (trackAccess st e).2)
    (whitelistIP initialTracker "3.3.3.3")

/-- C3 counterexample: for a whitelisted IP the fifth failure within five
minutes brings the ring count to 5, yet `track` returns no alert at all —
the claim as stated (for every failed event) is false; the whitelist (and
blocked-IP) early return must be excluded. -/
theorem C3_whitelisted_bruteforce_cex :
    (c3cexEv 4).success = false ∧
    5 ≤ bruteForceCount c3cexState (c3cexEv 4) ∧
    (trackAccess c3cexState (c3cexEv 4)).1 = [] := by decide

/-- C3 (amended with the non-blocked / non-whitelisted precondition):
for a failed event whose IP is neither blocked nor whitelisted, if the
failed events from that IP within five minutes in the ring (the new event
included) number at least 5, `trackAccess` returns a `bruteForce` alert of
severity high whose `shouldBlock` records whether the count reached 10;
when it did, the tracker auto-blocks the IP with reason
`"Brute force: N failed attempts"`, making `isBlocked` true. -/
theorem C3_bruteForce_threshold (st : TrackerState) (e : IPAccessLog)
    (hf : e.success = false)
    (hb : st.blockedIPs.contains e.ip = false)
    (hw : st.whitelistedIPs.contains e.ip = false)
    (h5 : 5 ≤ bruteForceCount st e) :
    (∃ a ∈ (trackAccess st e).1,
       a.type = .bruteForce ∧ a.severity = .high ∧
       a.shouldBlock = some (decide (10 ≤ bruteForceCount st e))) ∧
    (10 ≤ bruteForceCount st e →
       isBlocked (trackAccess st e).2 e.ip = true ∧
       ("[SECURITY] Blocked IP " ++ e.ip ++ ": " ++
         ("Brute force: " ++ toString (bruteForceCount st e) ++
           " failed attempts"))
         ∈ (trackAccess st e).2.consoleWarnings) := by
  obtain ⟨ha, hs⟩ := trackAccess_alerts_normal st e hb hw
  obtain ⟨hba, hbs⟩ := checkBruteForce_fires st e hf h5
  constructor
  · refine ⟨bruteAlert st e, ?_, rfl, rfl, rfl⟩
    rw [ha, hba]
    simp
  · intro h10
    have h10' : FAILED_LOGIN_THRESHOLD * 2 ≤ bruteForceCount st e := h10
    rw [hs, hbs, if_pos h10']
    constructor
    · exact setAddStr_contains _ _
    · simp [blockIP]

/-- Nine prior failures from `6.6.6.6`, then a tenth. -/
def c3witEv (i : Nat) : IPAccessLog :=
  { ip := "6.6.6.6", timestamp := (i : Int) * 1000, endpoint := "/login",
    method := "POST", statusCode := 401, success := false }

/-- State after the first nine failures. -/
def c3witState : TrackerState :=
  ((List.range 9).map c3witEv).foldl (fun st e => (trackAccess st e).2)
    initialTracker

/-- Witness for `C3_bruteForce_threshold` at the tenth failure. -/
theorem C3_bruteForce_threshold_witness :
    (c3witEv 9).success = false ∧
    c3witState.blockedIPs.contains (c3witEv 9).ip = false ∧
    c3witState.whitelistedIPs.contains (c3witEv 9).ip = false ∧
    5 ≤ bruteForceCount c3witState (c3witEv 9) ∧
    ((∃ a ∈ (trackAccess c3witState (c3witEv 9)).1,
        a.type = .bruteForce ∧ a.severity = .high ∧
        a.shouldBlock =
          some (decide (10 ≤ bruteForceCount c3witState (c3witEv 9)))) ∧
     (10 ≤ bruteForceCount c3witState (c3witEv 9) →
        isBlocked (trackAccess c3witState (c3witEv 9)).2 (c3witEv 9).ip = true ∧
        ("[SECURITY] Blocked IP " ++ (c3witEv 9).ip ++ ": " ++
          ("Brute force: " ++
            toString (bruteForceCount c3witState (c3witEv 9)) ++
            " failed attempts"))
          ∈ (trackAccess c3witState (c3witEv 9)).2.consoleWarnings)) :=
  ⟨rfl, by decide, by decide, by decide,
   C3_bruteForce_threshold c3witState (c3witEv 9) rfl (by decide) (by decide)
     (by decide)⟩

/-! ## Claim C4 -/

/-- 33 pairwise-distinct single-character IPs. -/
def c4ip (i : Nat) : String := String.mk [Char.ofNat (65 + i)]

/-- Successful events for one user from 33 distinct IPs. -/
def c4cexEv (i : Nat) : IPAccessLog :=
  { ip := c4ip i, timestamp := 0, endpoint := "/e", method := "GET",
    statusCode := 200, userId := some "u", success := true }

set_option maxRecDepth 20000 in
/-- C4 counterexample: after 33 successful events from 33 distinct IPs for
one user, that user's IP-history set holds 33 elements — the source never
caps the per-user IP history (claimed bound 32), nor the per-IP sets. -/
theorem C4_userIPHistory_unbounded_cex :
    ((List.lookup "u"
        (runTracker ((List.range 33).map c4cexEv)).userIPHistory).getD
      []).length = 33 := by decide

/-- C4 (amended to what the code guarantees): the recent-events ring is
bounded by 10000 after any sequence of `track` calls; the per-IP sets and
the per-user IP history are unbounded in the source. -/
theorem C4_ring_bounded (evs : List IPAccessLog) :
    (runTracker evs).accessLogs.length ≤ 10000 := by
  suffices h : ∀ (l : List IPAccessLog) (st : TrackerState),
      st.accessLogs.length ≤ MAX_LOGS →
      (l.foldl (fun s e => (trackAccess s e).2) st).accessLogs.length ≤
        MAX_LOGS by
    exact h evs initialTracker (by decide)
  intro l
  induction l with
  | nil => intro st h; simpa using h
  | cons e rest ih =>
    intro st h
    rw [List.foldl_cons]
    apply ih
    rw [(trackAccess_state st e).1, ringAfter]
    split
    · rename_i hlen
      rw [List.length_drop, List.length_append, List.length_singleton]
      omega
    · rename_i hlen
      rw [List.length_append, List.length_singleton] at hlen ⊢
      omega

/-! ## Claim C8 -/

/-- Counter invariant: every tracked entry satisfies
`total = failed + success`. -/
def countersOK (st : TrackerState) : Prop :=
  ∀ p ∈ st.ipStats,
    p.2.totalRequests = p.2.failedRequests + p.2.successRequests

/-- Time invariant relative to a bound `t` on all processed timestamps. -/
def timesBounded (st : TrackerState) (t : Int) : Prop :=
  ∀ p ∈ st.ipStats, p.2.firstSeen ≤ p.2.lastSeen ∧ p.2.lastSeen ≤ t

/-- `statsAfter` preserves the counter invariant. -/
theorem statsAfter_counters (st : TrackerState) (e : IPAccessLog)
    (h : countersOK st) :
    (statsAfter st e).totalRequests =
      (statsAfter st e).failedRequests + (statsAfter st e).successRequests := by
  have h0 : (statsBase st e).totalRequests =
      (statsBase st e).failedRequests + (statsBase st e).successRequests := by
    rw [statsBase]
    split
    · rename_i s hlk
      exact h (e.ip, s) (lookup_mem _ _ _ hlk)
    · rfl
  rw [statsAfter]
  cases hua : e.userAgent <;> cases hui : e.userId <;> cases hsc : e.success <;>
    simp only [hua, hui, hsc] <;> (repeat' split) <;> dsimp only <;> omega

/-- `statsAfter` keeps `firstSeen ≤ lastSeen` when timestamps do not go
backwards. -/
theorem statsAfter_times (st : TrackerState) (e : IPAccessLog) (t : Int)
    (h : timesBounded st t) (hte : t ≤ e.timestamp) :
    (statsAfter st e).firstSeen ≤ (statsAfter st e).lastSeen ∧
    (statsAfter st e).lastSeen ≤ e.timestamp := by
  have h0 : (statsBase st e).firstSeen ≤ e.timestamp := by
    rw [statsBase]
    split
    · rename_i s hlk
      have := h (e.ip, s) (lookup_mem _ _ _ hlk)
      exact le_trans (le_trans this.1 this.2) hte
    · exact le_refl _
  rw [statsAfter]
  cases hua : e.userAgent <;> cases hui : e.userId <;> cases hsc : e.success <;>
    simp only [hua, hui, hsc] <;> (repeat' split) <;> dsimp only <;>
    exact ⟨h0, le_refl _⟩

/-- `trackAccess` preserves the counter invariant. -/
theorem trackAccess_countersOK (st : TrackerState) (e : IPAccessLog)
    (h : countersOK st) : countersOK (trackAccess st e).2 := by
  intro p hp
  rw [(trackAccess_state st e).2.1] at hp
  rcases mapSetStr_val_mem _ _ _ p hp with h2 | h2
  · rw [h2]; exact statsAfter_counters st e h
  · exact h p h2

/-- `trackAccess` preserves the time invariant for nondecreasing input. -/
theorem trackAccess_timesBounded (st : TrackerState) (e : IPAccessLog)
    (t : Int) (h : timesBounded st t) (hte : t ≤ e.timestamp) :
    timesBounded (trackAccess st e).2 e.timestamp := by
  intro p hp
  rw [(trackAccess_state st e).2.1] at hp
  rcases mapSetStr_val_mem _ _ _ p hp with h2 | h2
  · rw [h2]; exact statsAfter_times st e t h hte
  · obtain ⟨h3, h4⟩ := h p h2
    exact ⟨h3, le_trans h4 hte⟩

/-- Folding any event list preserves the counter invariant. -/
theorem foldTracker_countersOK :
    ∀ (l : List IPAccessLog) (st : TrackerState), countersOK st →
      countersOK (l.foldl (fun s e => (trackAccess s e).2) st) := by
  intro l
  induction l with
  | nil => intro st h; simpa using h
  | cons e rest ih =>
    intro st h
    rw [List.foldl_cons]
    exact ih _ (trackAccess_countersOK st e h)

/-- Folding a chain-sorted event list keeps `firstSeen ≤ lastSeen`. -/
theorem foldTracker_times :
    ∀ (l : List IPAccessLog) (st : TrackerState) (t : Int),
      timesBounded st t →
      List.Chain (fun a b : Int => a ≤ b) t (l.map (fun e => e.timestamp)) →
      ∀ p ∈ (l.foldl (fun s e => (trackAccess s e).2) st).ipStats,
        p.2.firstSeen ≤ p.2.lastSeen := by
  intro l
  induction l with
  | nil =>
    intro st t h _ p hp
    exact (h p (by simpa using hp)).1
  | cons e rest ih =>
    intro st t h hch p hp
    rw [List.map_cons, List.chain_cons] at hch
    rw [List.foldl_cons] at hp
    exact ih ((trackAccess st e).2) e.timestamp
      (trackAccess_timesBounded st e t h hch.1) hch.2 p hp

/-- The event timestamps are pairwise nondecreasing. -/
def tsMonotone (evs : List IPAccessLog) : Prop :=
  List.Chain' (fun a b : Int => a ≤ b) (evs.map (fun e => e.timestamp))

/-- C8: after any sequence of `track` calls every `IPStats` entry has
`total = failed + success`; and under nondecreasing event timestamps (the
conditioning the claim itself allows, since `track` trusts
`event.timestamp`) every entry has `first_seen ≤ last_seen`. -/
theorem C8_stats_invariants (evs : List IPAccessLog) :
    countersOK (runTracker evs) ∧
    (tsMonotone evs →
      ∀ p ∈ (runTracker evs).ipStats, p.2.firstSeen ≤ p.2.lastSeen) := by
  constructor
  · exact foldTracker_countersOK evs initialTracker
      (by intro p hp; simp [initialTracker] at hp)
  · intro hmono
    cases evs with
    | nil =>
      intro p hp
      simp [runTracker, initialTracker] at hp
    | cons e rest =>
      have hch : List.Chain (fun a b : Int => a ≤ b) e.timestamp
          ((e :: rest).map (fun x => x.timestamp)) := by
        rw [List.map_cons, List.chain_cons]
        refine ⟨le_refl _, ?_⟩
        rw [tsMonotone, List.map_cons] at hmono
        exact hmono
      exact foldTracker_times (e :: rest) initialTracker e.timestamp
        (by intro p hp; simp [initialTracker] at hp) hch

/-- Two in-order events from one IP. -/
def c8witEvs : List IPAccessLog :=
  [{ ip := "8.8.8.8", timestamp := 5, endpoint := "/a", method := "GET",
     statusCode := 200, success := true },
   { ip := "8.8.8.8", timestamp := 7, endpoint := "/b", method := "GET",
     statusCode := 500, success := false }]

/-- Witness for `C8_stats_invariants` on a concrete sorted run. -/
theorem C8_stats_invariants_witness :
    tsMonotone c8witEvs ∧
    ∀ p ∈ (runTracker c8witEvs).ipStats, p.2.firstSeen ≤ p.2.lastSeen :=
  ⟨by simp [tsMonotone, c8witEvs],
   (C8_stats_invariants c8witEvs).2 (by simp [tsMonotone, c8witEvs])⟩

/-! ## Claim C10 -/

/-- C10: `blockIP` only adds to the blocked set (whitelist, statistics,
ring and history untouched — in particular the IP stays whitelisted);
and for an IP that `isBlocked`, `trackAccess` returns exactly the
critical blocked-IP alert, the blocked check preceding the whitelist
check. -/
theorem C10_block_frame_precedence :
    (∀ (st : TrackerState) (ip reason : String),
       (blockIP st ip reason).blockedIPs = setAddStr st.blockedIPs ip ∧
       (blockIP st ip reason).whitelistedIPs = st.whitelistedIPs ∧
       (blockIP st ip reason).ipStats = st.ipStats ∧
       (blockIP st ip reason).accessLogs = st.accessLogs ∧
       (blockIP st ip reason).userIPHistory = st.userIPHistory ∧
       isBlocked (blockIP st ip reason) ip = true) ∧
    (∀ (st : TrackerState) (ip reason : String),
       isWhitelisted st ip = true →
       isWhitelisted (blockIP st ip reason) ip = true) ∧
    (∀ (st : TrackerState) (e : IPAccessLog),
       isBlocked st e.ip = true →
       (trackAccess st e).1 =
         [{ type := .suspiciousIP, severity := .critical, ip := e.ip,
            description := "Blocked IP " ++ e.ip ++ " attempted access",
            shouldBlock := some true }]) := by
  refine ⟨?_, ?_, ?_⟩
  · intro st ip reason
    exact ⟨rfl, rfl, rfl, rfl, rfl, setAddStr_contains _ _⟩
  · intro st ip reason h
    exact h
  · intro st e h
    rw [trackAccess]
    dsimp only
    split
    · rfl
    · rename_i hc
      exact absurd h hc

/-- Whitelist `7.7.7.7` first, block it afterwards. -/
def c10St : TrackerState :=
  blockIP (whitelistIP initialTracker "7.7.7.7") "7.7.7.7" "manual block"

/-- A request from the whitelisted-then-blocked IP. -/
def c10Ev : IPAccessLog :=
  { ip := "7.7.7.7", timestamp := 0, endpoint := "/x", method := "GET",
    statusCode := 200, success := true }

/-- Witness for `C10_block_frame_precedence` on the concrete scenario. -/
theorem C10_block_frame_precedence_witness :
    isBlocked c10St "7.7.7.7" = true ∧
    isWhitelisted c10St "7.7.7.7" = true ∧
    (trackAccess c10St c10Ev).1 =
      [{ type := .suspiciousIP, severity := .critical, ip := "7.7.7.7",
         description := "Blocked IP 7.7.7.7 attempted access",
         shouldBlock := some true }] :=
  ⟨(C10_block_frame_precedence.1 (whitelistIP initialTracker "7.7.7.7")
      "7.7.7.7" "manual block").2.2.2.2.2,
   C10_block_frame_precedence.2.1 (whitelistIP initialTracker "7.7.7.7")
     "7.7.7.7" "manual block" (by decide),
   C10_block_frame_precedence.2.2 c10St c10Ev (by decide)⟩

/-! ## Sharing-free JS values and the DFS sanitizer (`data-sanitizer.ts`) -/

/-- JS values as trees (no sharing and no cycles; the heap-and-reference
model `sanitizeHDFS` below covers shared and cyclic graphs).  The exotic
leaves mirror the `instanceof` dispatch of the source. -/
inductive Value where
  | vnull
  | vundef
  | vbool (b : Bool)
  | vnum (n : Int)
  | vstr (s : String)
  | vfunc
  | vdate
  | vregexp
  | verror (name msg : String) (stack : Option String)
  | vbuffer
  | vpromise
  | vweakmap
  | vweakset
  | varr (elems : List Value)
  | vmap (entries : List (Value × Value))
  | vset (elems : List Value)
  | vobj (fields : List (String × Value)) (ctor : String)

/-- Is the value a JS primitive (not heap-allocated)? -/
def jsPrim : Value → Bool
  | .vnull | .vundef | .vbool _ | .vnum _ | .vstr _ => true
  | _ => false

/-- SameValueZero on sharing-free values: primitives compare structurally,
objects compare by identity — and every object node of a tree is a distinct
object, so object comparisons are always false. -/
def jsEq : Value → Value → Bool
  | .vnull, .vnull => true
  | .vundef, .vundef => true
  | .vbool x, .vbool y => x == y
  | .vnum x, .vnum y => x == y
  | .vstr x, .vstr y => x == y
  | _, _ => false

/-- JS `Map.set`: replace the value at a SameValueZero-equal key (keeping
the original key and position) or append. -/
def jsMapSet : List (Value × Value) → Value → Value → List (Value × Value)
  | [], k, v => [(k, v)]
  | (k', v') :: rest, k, v =>
    if jsEq k' k then (k', v) :: rest else (k', v') :: jsMapSet rest k v

/-- JS `Set.add`: keep the first occurrence under SameValueZero. -/
def jsSetAdd (l : List Value) (x : Value) : List Value :=
  if l.any (fun y => jsEq y x) then l else l ++ [x]

/-- `DataSanitizer.maskValue`: the field-level mask for sensitive keys. -/
def maskValue : Value → String
  | .vnull => "***"
  | .vundef => "***"
  | .vstr s =>
    if s.data.length ≤ 3 then "***"
    else String.mk [s.data.headD '*', '*', '*', '*', s.data.getLastD '*']
  | .vnum _ => "***"
  | .vbool _ => "***"
  | _ => "***[MASKED]***"

/-- The sanitizer object: a policy and the `maxDepth` field (default 50). -/
structure Sanitizer where
  policy : MaskingPolicy
  maxDepth : Nat := 50

/-- `DataSanitizer.sanitizeDFS` on sharing-free values, in source dispatch
order: null/undefined, depth guard, primitives (strings swept by the
rules), functions, Date/RegExp/Error/Buffer, then the containers; the
depth guard precedes the dispatch in the source and is written per branch
here (it does not inspect the value, so the two forms agree).  On a
tree every non-primitive node is a distinct object, so the WeakMap
re-encounter check of the source can never fire and is omitted here (the
heap model keeps it).  `fuel` only bounds recursion: the entry point
passes `maxDepth + 2`, which the depth guard keeps unreachable. -/
def sanitizeDFS (san : Sanitizer) : Nat → Value → Nat → Value
  | 0, v, _ => v
  | _ + 1, .vnull, _ => .vnull
  | _ + 1, .vundef, _ => .vundef
  | _ + 1, .vstr s, depth =>
    if san.maxDepth < depth then .vstr "[MAX_DEPTH_EXCEEDED]"
    else .vstr (sanitizeString san.policy s)
  | _ + 1, .vnum n, depth =>
    if san.maxDepth < depth then .vstr "[MAX_DEPTH_EXCEEDED]" else .vnum n
  | _ + 1, .vbool b, depth =>
    if san.maxDepth < depth then .vstr "[MAX_DEPTH_EXCEEDED]" else .vbool b
  | _ + 1, .vfunc, depth =>
    if san.maxDepth < depth then .vstr "[MAX_DEPTH_EXCEEDED]"
    else .vstr "[Function]"
  | _ + 1, .vdate, depth =>
    if san.maxDepth < depth then .vstr "[MAX_DEPTH_EXCEEDED]" else .vdate
  | _ + 1, .vregexp, depth =>
    if san.maxDepth < depth then .vstr "[MAX_DEPTH_EXCEEDED]" else .vregexp
  | _ + 1, .verror name msg stack, depth =>
    if san.maxDepth < depth then .vstr "[MAX_DEPTH_EXCEEDED]"
    else
      .vobj [("name", .vstr name),
        ("message", .vstr (sanitizeString san.policy msg)),
        ("stack", match stack with
          | some s => .vstr (sanitizeString san.policy s)
          | none => .vundef)] "Object"
  | _ + 1, .vbuffer, depth =>
    if san.maxDepth < depth then .vstr "[MAX_DEPTH_EXCEEDED]"
    else .vstr "[Binary Data]"
  | fuel + 1, .varr elems, depth =>
    if san.maxDepth < depth then .vstr "[MAX_DEPTH_EXCEEDED]"
    else .varr (elems.map (fun x => sanitizeDFS san fuel x (depth + 1)))
  | fuel + 1, .vmap entries, depth =>
    if san.maxDepth < depth then .vstr "[MAX_DEPTH_EXCEEDED]"
    else
      .vmap (entries.foldl (fun acc kv =>
        jsMapSet acc (sanitizeDFS san fuel kv.1 (depth + 1))
          (sanitizeDFS san fuel kv.2 (depth + 1))) [])
  | fuel + 1, .vset elems, depth =>
    if san.maxDepth < depth then .vstr "[MAX_DEPTH_EXCEEDED]"
    else
      .vset (elems.foldl (fun acc x =>
        jsSetAdd acc (sanitizeDFS san fuel x (depth + 1))) [])
  | _ + 1, .vweakmap, depth =>
    if san.maxDepth < depth then .vstr "[MAX_DEPTH_EXCEEDED]"
    else .vstr "[WeakMap]"
  | _ + 1, .vweakset, depth =>
    if san.maxDepth < depth then .vstr "[MAX_DEPTH_EXCEEDED]"
    else .vstr "[WeakSet]"
  | _ + 1, .vpromise, depth =>
    if san.maxDepth < depth then .vstr "[MAX_DEPTH_EXCEEDED]"
    else .vstr "[Promise]"
  | fuel + 1, .vobj fields ctor, depth =>
    if san.maxDepth < depth then .vstr "[MAX_DEPTH_EXCEEDED]"
    else
      let sanitized := fields.map (fun kv =>
        (kv.1, if isSensitiveField kv.1 then Value.vstr (maskValue kv.2)
          else sanitizeDFS san fuel kv.2 (depth + 1)))
      .vobj (if ctor == "Object" then sanitized
        else sanitized ++ [("__type", Value.vstr ctor)]) "Object"

/-- `DataSanitizer.sanitize`: identity in development mode or when
disabled, else the DFS from depth 0. -/
def sanitize (san : Sanitizer) (v : Value) : Value :=
  if !san.policy.enabled || san.policy.mode == .development then v
  else sanitizeDFS san (san.maxDepth + 2) v 0

/-- `DataSanitizer.containsPIIDFS` on sharing-free values: strings are
tested before the depth guard, non-objects are PII-free, containers
recurse, object keys are checked for sensitivity; only `RegExp` rules are
consulted (via `containsPIIInString`).  Exotic objects (Date, RegExp,
Error, Buffer, Promise, weak collections) fall through to the
`Object.entries` loop with no own enumerable string-keyed entries. -/
def containsPIIDFS (san : Sanitizer) : Nat → Value → Nat → Bool
  | 0, _, _ => false
  | fuel + 1, v, depth =>
    match v with
    | .vnull => false
    | .vundef => false
    | .vstr s => containsPIIInString san.policy s
    | .vnum _ => false
    | .vbool _ => false
    | .vfunc => false
    | v =>
      if san.maxDepth < depth then false
      else
        match v with
        | .varr elems =>
          elems.any (fun x => containsPIIDFS san fuel x (depth + 1))
        | .vmap entries =>
          entries.any (fun kv =>
            containsPIIDFS san fuel kv.1 (depth + 1) ||
            containsPIIDFS san fuel kv.2 (depth + 1))
        | .vset elems =>
          elems.any (fun x => containsPIIDFS san fuel x (depth + 1))
        | .vobj fields _ =>
          fields.any (fun kv =>
            isSensitiveField kv.1 ||
            containsPIIDFS san fuel kv.2 (depth + 1))
        | _ => false

/-- `DataSanitizer.containsPII`. -/
def containsPII (san : Sanitizer) (v : Value) : Bool :=
  containsPIIDFS san (san.maxDepth + 2) v 0

/-- The default production sanitizer (`new DataSanitizer()` under
`NODE_ENV=production`). -/
def prodSanitizer : Sanitizer := { policy := createMaskingPolicy "production" }

/-! ## Log emission (`winston-logger.service.ts`, `json-logger.service.ts`) -/

/-- JS object spread `{...a, ...b}`: `a`'s keys in order with `b`'s values
where overridden, then `b`'s new keys in `b`'s order. -/
def objMerge (a b : List (String × Value)) : List (String × Value) :=
  a.map (fun kv => (kv.1, (List.lookup kv.1 b).getD kv.2)) ++
  b.filter (fun kv => !(a.any (fun kv' => kv'.1 == kv.1)))

/-- The record handed to the winston transport by
`WinstonLoggerService.log`. -/
structure SinkCall where
  level : String
  message : String
  context : Option String
  metadata : List (String × Value)

/-- The only error kind §7 allows `emit` to raise. -/
inductive LogError where
  | policyViolation
deriving DecidableEq

/-- `WinstonLoggerService.log` (metadata overload): merge the
AsyncLocalStorage trace context with the caller metadata and hand the
record to the sink.  The method neither consults `strictMode` nor calls
`containsPII`; it always reaches the sink and never throws, which the
`Except` result makes explicit.  JS falsiness: an empty `context` string
falls back to the instance context. -/
def winstonLog (selfContext : Option String)
    (traceCtx : List (String × Value)) (message : String)
    (metadata : List (String × Value)) (context : Option String) :
    Except LogError SinkCall :=
  Except.ok
    { level := "info", message := message,
      context := match context with
        | some c => if c.isEmpty then selfContext else some c
        | none => selfContext,
      metadata := objMerge traceCtx metadata }

/-- The JSON log entry built by `JsonLoggerService.formatLog` (the
wall-clock `timestamp` field is not modelled; `JSON.stringify` of the
entry is the sink payload). -/
structure LogEntry where
  level : String
  message : String
  context : Option String
  trace : Option String
  metadata : List (String × Value)

/-- `JsonLoggerService.formatLog`: merges trace context and metadata and
always produces the entry — again no `strictMode` / `containsPII` /
`PolicyViolation` logic exists on this path. -/
def jsonFormatLog (selfContext : Option String)
    (traceCtx : List (String × Value)) (level : String) (message : String)
    (context : Option String) (trace : Option String)
    (metadata : List (String × Value)) : Except LogError LogEntry :=
  Except.ok
    { level := level, message := message,
      context := match context with
        | some c => if c.isEmpty then selfContext else some c
        | none => selfContext,
      trace := trace,
      metadata := objMerge traceCtx metadata }

/-! ## Claim C2 -/

/-- The production policy with `strictMode` switched on by the caller. -/
def strictPolicy : MaskingPolicy :=
  { createMaskingPolicy "production" with strictMode := true }

/-- A bound trace context. -/
def c2trace : List (String × Value) := [("trace_id", .vstr "t1")]

/-- Metadata carrying PII under a sensitive key. -/
def c2md : List (String × Value) := [("password", .vstr "hunter2")]

/-- C2, evaluated on the code at the failing input: with `strictMode` on
and `containsPII` true of the merged metadata, both emit paths still hand
the record to the sink and raise nothing — no code path checks
`strictMode` or raises `PolicyViolation`, contradicting the policy
field's own documentation (`masking-policy.ts`: "If true, throws error
when PII detected in prod"). -/
theorem C2_strictMode_code_eval :
    strictPolicy.strictMode = true ∧
    containsPII { policy := strictPolicy }
      (.vobj (objMerge c2trace c2md) "Object") = true ∧
    winstonLog none c2trace "login" c2md none =
      .ok { level := "info", message := "login", context := none,
            metadata := objMerge c2trace c2md } ∧
    jsonFormatLog none c2trace "info" "login" none none c2md =
      .ok { level := "info", message := "login", context := none,
            trace := none, metadata := objMerge c2trace c2md } :=
  ⟨rfl, by decide, rfl, rfl⟩

/-! ## Claim C5 -/

/-- A rule matcher following the spec's words ("any enabled rule matches
any reached string"): a regular-expression rule matches when its pattern
tests true, a literal rule when the string contains the literal
case-insensitively. -/
def specRuleMatches (r : MaskingRule) (s : String) : Bool :=
  match r.pattern with
  | .regex p => patTest p s
  | .literal lit => hasSublist (lowerList lit.data) (lowerList s.data)

/-- C5 counterexample: the enabled literal "password" rule matches the
string "my password" (so a rule-sweep of `sanitize` rewrites it), yet
`containsPII` is false on it — `containsPIIInString` tests only
`instanceof RegExp` patterns and skips literal rules. -/
theorem C5_literal_rule_skipped_cex :
    (∃ r ∈ (createMaskingPolicy "production").rules,
       r.enabled = true ∧ r.name = "password" ∧
       specRuleMatches r "my password" = true) ∧
    sanitizeString (createMaskingPolicy "production") "my password" =
      "my ********" ∧
    containsPII prodSanitizer (.vstr "my password") = false := by
  refine ⟨?_, by decide, by decide⟩
  refine ⟨{ name := "password", pattern := .literal "password",
            replacement := "********", enabled := true }, ?_, rfl, rfl, by decide⟩
  simp [createMaskingPolicy, DEFAULT_MASKING_RULES]

/-- The strings reached by the `containsPIIDFS` traversal (strings are
reached before the depth guard; containers below the guard reach
nothing). -/
def piiStrsF (san : Sanitizer) : Nat → Value → Nat → List String
  | 0, _, _ => []
  | fuel + 1, v, depth =>
    match v with
    | .vstr s => [s]
    | .varr elems =>
      if san.maxDepth < depth then []
      else (elems.map (fun x => piiStrsF san fuel x (depth + 1))).flatten
    | .vmap entries =>
      if san.maxDepth < depth then []
      else (entries.map (fun kv =>
        piiStrsF san fuel kv.1 (depth + 1) ++
        piiStrsF san fuel kv.2 (depth + 1))).flatten
    | .vset elems =>
      if san.maxDepth < depth then []
      else (elems.map (fun x => piiStrsF san fuel x (depth + 1))).flatten
    | .vobj fields _ =>
      if san.maxDepth < depth then []
      else (fields.map (fun kv => piiStrsF san fuel kv.2 (depth + 1))).flatten
    | _ => []

/-- The object keys reached by the `containsPIIDFS` traversal. -/
def piiKeysF (san : Sanitizer) : Nat → Value → Nat → List String
  | 0, _, _ => []
  | fuel + 1, v, depth =>
    match v with
    | .varr elems =>
      if san.maxDepth < depth then []
      else (elems.map (fun x => piiKeysF san fuel x (depth + 1))).flatten
    | .vmap entries =>
      if san.maxDepth < depth then []
      else (entries.map (fun kv =>
        piiKeysF san fuel kv.1 (depth + 1) ++
        piiKeysF san fuel kv.2 (depth + 1))).flatten
    | .vset elems =>
      if san.maxDepth < depth then []
      else (elems.map (fun x => piiKeysF san fuel x (depth + 1))).flatten
    | .vobj fields _ =>
      if san.maxDepth < depth then []
      else fields.map (fun kv => kv.1) ++
        (fields.map (fun kv => piiKeysF san fuel kv.2 (depth + 1))).flatten
    | _ => []

/-- `any` over a flattened map. -/
theorem any_flatten_map {α β : Type} (l : List α) (f : α → List β)
    (g : β → Bool) :
    ((l.map f).flatten.any g) = l.any (fun x => (f x).any g) := by
  induction l with
  | nil => rfl
  | cons a rest ih => simp [List.any_append, ih]

/-- `any` distributes over a pointwise disjunction. -/
theorem any_or_split {α : Type} (l : List α) (f g : α → Bool) :
    l.any (fun x => f x || g x) = (l.any f || l.any g) := by
  induction l with
  | nil => rfl
  | cons a rest ih =>
    simp only [List.any_cons, ih]
    cases f a <;> cases g a <;> simp

/-- `any` over the mapped first components. -/
theorem any_map_fst {α β : Type} (l : List (α × β)) (g : α → Bool) :
    (l.map (fun kv => kv.1)).any g = l.any (fun kv => g kv.1) := by
  induction l <;> simp_all

/-- The short-circuited boolean DFS equals the existential over the
collected strings and keys. -/
theorem containsPIIDFS_chars (san : Sanitizer) :
    ∀ (fuel : Nat) (v : Value) (depth : Nat),
      containsPIIDFS san fuel v depth =
        ((piiStrsF san fuel v depth).any
            (fun s => containsPIIInString san.policy s) ||
         (piiKeysF san fuel v depth).any (fun k => isSensitiveField k)) := by
  intro fuel
  induction fuel with
  | zero => intro v depth; rfl
  | succ fuel ih =>
    intro v depth
    cases v with
    | vstr s => simp [containsPIIDFS, piiStrsF, piiKeysF]
    | varr elems =>
      rw [containsPIIDFS, piiStrsF, piiKeysF]
      split
      · rfl
      · simp only [ih, any_flatten_map, any_or_split]
    | vmap entries =>
      rw [containsPIIDFS, piiStrsF, piiKeysF]
      split
      · rfl
      · simp only [ih, List.any_append, any_flatten_map, any_or_split]
        simp [Bool.or_comm, Bool.or_left_comm, Bool.or_assoc]
    | vset elems =>
      rw [containsPIIDFS, piiStrsF, piiKeysF]
      split
      · rfl
      · simp only [ih, any_flatten_map, any_or_split]
    | vobj fields ctor =>
      rw [containsPIIDFS, piiStrsF, piiKeysF]
      split
      · rfl
      · simp only [ih, List.any_append, any_flatten_map, any_or_split,
          any_map_fst]
        simp [Bool.or_comm, Bool.or_left_comm, Bool.or_assoc]
    | vnull => rfl
    | vundef => rfl
    | vbool b => rfl
    | vnum n => rfl
    | vfunc => rfl
    | vdate => simp [containsPIIDFS, piiStrsF, piiKeysF]
    | vregexp => simp [containsPIIDFS, piiStrsF, piiKeysF]
    | verror a b c => simp [containsPIIDFS, piiStrsF, piiKeysF]
    | vbuffer => simp [containsPIIDFS, piiStrsF, piiKeysF]
    | vpromise => simp [containsPIIDFS, piiStrsF, piiKeysF]
    | vweakmap => simp [containsPIIDFS, piiStrsF, piiKeysF]
    | vweakset => simp [containsPIIDFS, piiStrsF, piiKeysF]

/-- The strings reached by `containsPII` under the default sanitizer. -/
def piiStrings (v : Value) : List String :=
  piiStrsF prodSanitizer (prodSanitizer.maxDepth + 2) v 0

/-- The keys reached by `containsPII` under the default sanitizer. -/
def piiKeys (v : Value) : List String :=
  piiKeysF prodSanitizer (prodSanitizer.maxDepth + 2) v 0

/-- C5 (amended: only rules whose pattern is a `RegExp` are consulted on
strings — the literal-substring rules, the "password" rule among them, are
skipped by `containsPII`): for every value, `containsPII` is true iff some
enabled regex rule matches some string reached by the traversal, or some
reached object key contains a sensitive-field substring. -/
theorem C5_containsPII_characterization (v : Value) :
    containsPII prodSanitizer v = true ↔
      ((∃ s ∈ piiStrings v,
          containsPIIInString prodSanitizer.policy s = true) ∨
       (∃ k ∈ piiKeys v, isSensitiveField k = true)) := by
  rw [containsPII, containsPIIDFS_chars, piiStrings, piiKeys]
  rw [Bool.or_eq_true, List.any_eq_true, List.any_eq_true]

/-! ## Claim C6: idempotence analysis -/

/-- One rule sweep reaches a fixpoint after a single application. -/
def strFix (pol : MaskingPolicy) (s : String) : Bool :=
  sanitizeString pol (sanitizeString pol s) == sanitizeString pol s

mutual

/-- The class of values on which the default production sanitizer is
idempotent: no `Error` nodes, only plain (`Object`-tagged) objects,
sensitive-keyed fields hold primitives, and every string's sanitized form
is a fixpoint of the rule sweep. -/
def goodVal : Value → Bool
  | .vnull | .vundef | .vbool _ | .vnum _ => true
  | .vstr s => strFix prodSanitizer.policy s
  | .vfunc | .vdate | .vregexp => true
  | .verror _ _ _ => false
  | .vbuffer | .vpromise | .vweakmap | .vweakset => true
  | .varr elems => goodList elems
  | .vmap entries => goodPairs entries
  | .vset elems => goodList elems
  | .vobj fields ctor => ctor == "Object" && goodFields fields

/-- All list elements are good. -/
def goodList : List Value → Bool
  | [] => true
  | x :: rest => goodVal x && goodList rest

/-- All keys and values are good. -/
def goodPairs : List (Value × Value) → Bool
  | [] => true
  | (k, v) :: rest => goodVal k && goodVal v && goodPairs rest

/-- Sensitive-keyed fields are primitive, the rest good. -/
def goodFields : List (String × Value) → Bool
  | [] => true
  | (k, v) :: rest =>
    (if isSensitiveField k then jsPrim v else goodVal v) && goodFields rest

end

/-- The field-level mask is idempotent on primitives. -/
theorem maskIdem (x : Value) (h : jsPrim x = true) :
    maskValue (.vstr (maskValue x)) = maskValue x := by
  cases x <;> simp [jsPrim] at h <;> try rfl
  case vstr s =>
    by_cases hlen : s.data.length ≤ 3
    · have h1 : maskValue (.vstr s) = "***" := by rw [maskValue, if_pos hlen]
      rw [h1]
      decide
    · have h1 : maskValue (.vstr s) =
          String.mk [s.data.headD '*', '*', '*', '*', s.data.getLastD '*'] := by
        rw [maskValue, if_neg hlen]
      rw [h1, maskValue]
      simp [List.getLastD]

/-- The sanitizer's canonical tokens are rule-sweep fixpoints. -/
theorem marker_func_fix :
    sanitizeString prodSanitizer.policy "[Function]" = "[Function]" := by decide

/-- Binary-data token fixpoint. -/
theorem marker_binary_fix :
    sanitizeString prodSanitizer.policy "[Binary Data]" = "[Binary Data]" := by decide

/-- Promise token fixpoint. -/
theorem marker_promise_fix :
    sanitizeString prodSanitizer.policy "[Promise]" = "[Promise]" := by decide

/-- WeakMap token fixpoint. -/
theorem marker_weakmap_fix :
    sanitizeString prodSanitizer.policy "[WeakMap]" = "[WeakMap]" := by decide

/-- WeakSet token fixpoint. -/
theorem marker_weakset_fix :
    sanitizeString prodSanitizer.policy "[WeakSet]" = "[WeakSet]" := by decide

/-- Keys are pairwise distinct under SameValueZero (JS `Map` invariant). -/
def mapWF (l : List (Value × Value)) : Prop :=
  List.Pairwise (fun p q => jsEq p.1 q.1 = false) l

/-- Elements are pairwise distinct under SameValueZero (JS `Set`
invariant). -/
def setWF (l : List Value) : Prop :=
  List.Pairwise (fun a b => jsEq a b = false) l

/-- `jsSetAdd` appends when the element is fresh. -/
theorem jsSetAdd_append (l : List Value) (x : Value)
    (h : ∀ y ∈ l, jsEq y x = false) : jsSetAdd l x = l ++ [x] := by
  have hn : (l.any fun y => jsEq y x) = false := by
    rw [List.any_eq_false]
    intro y hy
    simp [h y hy]
  rw [jsSetAdd, hn]
  simp

/-- `jsSetAdd` preserves the set invariant. -/
theorem jsSetAdd_wf (l : List Value) (x : Value) (h : setWF l) :
    setWF (jsSetAdd l x) := by
  rw [jsSetAdd]
  split
  · exact h
  · rename_i hany
    rw [setWF, List.pairwise_append]
    refine ⟨h, List.pairwise_singleton _ _, ?_⟩
    intro a ha b hb
    rw [List.mem_singleton] at hb
    subst hb
    cases hjab : jsEq a b
    · rfl
    · exact absurd (List.any_eq_true.mpr ⟨a, ha, hjab⟩) hany

/-- Every element of `jsSetAdd l x` is `x` or from `l`. -/
theorem jsSetAdd_mem (l : List Value) (x y : Value)
    (h : y ∈ jsSetAdd l x) : y = x ∨ y ∈ l := by
  rw [jsSetAdd] at h
  split at h
  · exact Or.inr h
  · rcases List.mem_append.mp h with h' | h'
    · exact Or.inr h'
    · exact Or.inl (List.mem_singleton.mp h')

/-- `jsMapSet` appends when the key is fresh. -/
theorem jsMapSet_append (l : List (Value × Value)) (k v : Value)
    (h : ∀ p ∈ l, jsEq p.1 k = false) : jsMapSet l k v = l ++ [(k, v)] := by
  induction l with
  | nil => rfl
  | cons q rest ih =>
    obtain ⟨a, b⟩ := q
    rw [jsMapSet]
    have ha : jsEq a k = false := h (a, b) (List.mem_cons_self _ _)
    rw [ha]
    simp only [Bool.false_eq_true, if_false, List.cons_append]
    rw [ih (fun p hp => h p (List.mem_cons_of_mem _ hp))]

/-- Keys of `jsMapSet l k v` are `k` or keys of `l`. -/
theorem jsMapSet_keys (l : List (Value × Value)) (k v : Value) :
    ∀ p ∈ jsMapSet l k v, p.1 = k ∨ p.1 ∈ l.map (fun q => q.1) := by
  induction l with
  | nil =>
    intro p hp
    rw [jsMapSet, List.mem_singleton] at hp
    subst hp
    exact Or.inl rfl
  | cons q rest ih =>
    obtain ⟨a, b⟩ := q
    intro p hp
    rw [jsMapSet] at hp
    split at hp
    · rcases List.mem_cons.mp hp with h' | h'
      · rw [h']
        exact Or.inr (by simp)
      · exact Or.inr (List.mem_map.mpr ⟨p, List.mem_cons_of_mem _ h', rfl⟩)
    · rcases List.mem_cons.mp hp with h' | h'
      · rw [h']
        exact Or.inr (by simp)
      · rcases ih p h' with h2 | h2
        · exact Or.inl h2
        · refine Or.inr ?_
          rw [List.map_cons]
          exact List.mem_cons_of_mem _ h2

/-- `jsMapSet` preserves the map invariant. -/
theorem jsMapSet_wf (l : List (Value × Value)) (k v : Value)
    (h : mapWF l) : mapWF (jsMapSet l k v) := by
  induction l with
  | nil => simp [jsMapSet, mapWF]
  | cons q rest ih =>
    obtain ⟨a, b⟩ := q
    rw [mapWF, List.pairwise_cons] at h
    rw [jsMapSet]
    split
    · rw [mapWF, List.pairwise_cons]
      exact ⟨fun p hp => h.1 p hp, h.2⟩
    · rename_i hne
      rw [mapWF, List.pairwise_cons]
      constructor
      · intro p hp
        rcases jsMapSet_keys rest k v p hp with h2 | h2
        · rw [h2]
          simpa using hne
        · rcases List.mem_map.mp h2 with ⟨q2, hq2, hq3⟩
          rw [← hq3]
          exact h.1 q2 hq2
      · exact ih h.2

/-- Componentwise membership through `jsMapSet`. -/
theorem jsMapSet_mem (P : Value → Prop) (l : List (Value × Value))
    (k v : Value) (hl : ∀ p ∈ l, P p.1 ∧ P p.2) (hk : P k) (hv : P v) :
    ∀ p ∈ jsMapSet l k v, P p.1 ∧ P p.2 := by
  induction l with
  | nil =>
    intro p hp
    rw [jsMapSet, List.mem_singleton] at hp
    subst hp
    exact ⟨hk, hv⟩
  | cons q rest ih =>
    obtain ⟨a, b⟩ := q
    intro p hp
    rw [jsMapSet] at hp
    split at hp
    · rcases List.mem_cons.mp hp with h2 | h2
      · rw [h2]
        exact ⟨(hl (a, b) (List.mem_cons_self _ _)).1, hv⟩
      · exact hl p (List.mem_cons_of_mem _ h2)
    · rcases List.mem_cons.mp hp with h2 | h2
      · rw [h2]
        exact hl (a, b) (List.mem_cons_self _ _)
      · exact ih (fun r hr => hl r (List.mem_cons_of_mem _ hr)) p h2

/-- Fold congruence on members. -/
theorem foldl_congr_mem {α β : Type} :
    ∀ (l : List α) (f g : β → α → β) (acc : β),
      (∀ b x, x ∈ l → f b x = g b x) →
      l.foldl f acc = l.foldl g acc := by
  intro l
  induction l with
  | nil => intro f g acc _; rfl
  | cons a rest ih =>
    intro f g acc h
    rw [List.foldl_cons, List.foldl_cons, h acc a (List.mem_cons_self _ _)]
    exact ih f g _ (fun b x hx => h b x (List.mem_cons_of_mem _ hx))

/-- The map fold keeps componentwise properties. -/
theorem foldl_jsMapSet_mem (P : Value → Prop) (F G : Value × Value → Value) :
    ∀ (l acc : List (Value × Value)),
      (∀ p ∈ acc, P p.1 ∧ P p.2) →
      (∀ kv ∈ l, P (F kv) ∧ P (G kv)) →
      ∀ p ∈ l.foldl (fun acc kv => jsMapSet acc (F kv) (G kv)) acc,
        P p.1 ∧ P p.2 := by
  intro l
  induction l with
  | nil => intro acc hacc _ p hp; exact hacc p (by simpa using hp)
  | cons kv rest ih =>
    intro acc hacc hl p hp
    rw [List.foldl_cons] at hp
    exact ih _
      (jsMapSet_mem P acc (F kv) (G kv) hacc
        (hl kv (List.mem_cons_self _ _)).1 (hl kv (List.mem_cons_self _ _)).2)
      (fun r hr => hl r (List.mem_cons_of_mem _ hr)) p hp

/-- The map fold keeps the map invariant. -/
theorem foldl_jsMapSet_wf (F G : Value × Value → Value) :
    ∀ (l acc : List (Value × Value)), mapWF acc →
      mapWF (l.foldl (fun acc kv => jsMapSet acc (F kv) (G kv)) acc) := by
  intro l
  induction l with
  | nil => intro acc h; simpa using h
  | cons kv rest ih =>
    intro acc h
    rw [List.foldl_cons]
    exact ih _ (jsMapSet_wf _ _ _ h)

/-- Refolding a well-formed map is the identity. -/
theorem foldl_jsMapSet_refold :
    ∀ (l acc : List (Value × Value)), mapWF (acc ++ l) →
      l.foldl (fun acc kv => jsMapSet acc kv.1 kv.2) acc = acc ++ l := by
  intro l
  induction l with
  | nil => intro acc _; simp
  | cons kv rest ih =>
    intro acc h
    rw [List.foldl_cons]
    have hfresh : ∀ p ∈ acc, jsEq p.1 kv.1 = false := by
      intro p hp
      exact (List.pairwise_append.mp h).2.2 p hp kv (List.mem_cons_self _ _)
    rw [jsMapSet_append acc kv.1 kv.2 hfresh]
    have h2 : mapWF ((acc ++ [(kv.1, kv.2)]) ++ rest) := by
      simpa [List.append_assoc] using h
    rw [ih (acc ++ [(kv.1, kv.2)]) h2]
    simp

/-- The set fold keeps elementwise properties. -/
theorem foldl_jsSetAdd_mem (P : Value → Prop) (F : Value → Value) :
    ∀ (l acc : List Value),
      (∀ y ∈ acc, P y) → (∀ x ∈ l, P (F x)) →
      ∀ y ∈ l.foldl (fun acc x => jsSetAdd acc (F x)) acc, P y := by
  intro l
  induction l with
  | nil => intro acc hacc _ y hy; exact hacc y (by simpa using hy)
  | cons x rest ih =>
    intro acc hacc hl y hy
    rw [List.foldl_cons] at hy
    refine ih _ ?_ (fun r hr => hl r (List.mem_cons_of_mem _ hr)) y hy
    intro z hz
    rcases jsSetAdd_mem acc (F x) z hz with h2 | h2
    · rw [h2]; exact hl x (List.mem_cons_self _ _)
    · exact hacc z h2

/-- The set fold keeps the set invariant. -/
theorem foldl_jsSetAdd_wf (F : Value → Value) :
    ∀ (l acc : List Value), setWF acc →
      setWF (l.foldl (fun acc x => jsSetAdd acc (F x)) acc) := by
  intro l
  induction l with
  | nil => intro acc h; simpa using h
  | cons x rest ih =>
    intro acc h
    rw [List.foldl_cons]
    exact ih _ (jsSetAdd_wf _ _ h)

/-- Refolding a well-formed set is the identity. -/
theorem foldl_jsSetAdd_refold :
    ∀ (l acc : List Value), setWF (acc ++ l) →
      l.foldl (fun acc x => jsSetAdd acc x) acc = acc ++ l := by
  intro l
  induction l with
  | nil => intro acc _; simp
  | cons x rest ih =>
    intro acc h
    rw [List.foldl_cons]
    have hfresh : ∀ y ∈ acc, jsEq y x = false := by
      intro y hy
      exact (List.pairwise_append.mp h).2.2 y hy x (List.mem_cons_self _ _)
    rw [jsSetAdd_append acc x hfresh]
    have h2 : setWF ((acc ++ [x]) ++ rest) := by
      simpa [List.append_assoc] using h
    rw [ih (acc ++ [x]) h2]
    simp

/-- Membership form of `goodList`. -/
theorem goodList_mem {l : List Value} (h : goodList l = true) :
    ∀ x ∈ l, goodVal x = true := by
  induction l with
  | nil => intro x hx; simp at hx
  | cons a rest ih =>
    rw [goodList, Bool.and_eq_true] at h
    intro x hx
    rcases List.mem_cons.mp hx with h2 | h2
    · rw [h2]; exact h.1
    · exact ih h.2 x h2

/-- Membership form of `goodPairs`. -/
theorem goodPairs_mem {l : List (Value × Value)} (h : goodPairs l = true) :
    ∀ p ∈ l, goodVal p.1 = true ∧ goodVal p.2 = true := by
  induction l with
  | nil => intro p hp; simp at hp
  | cons a rest ih =>
    obtain ⟨k, v⟩ := a
    rw [goodPairs, Bool.and_eq_true, Bool.and_eq_true] at h
    intro p hp
    rcases List.mem_cons.mp hp with h2 | h2
    · rw [h2]; exact ⟨h.1.1, h.1.2⟩
    · exact ih h.2 p h2

/-- Membership form of `goodFields`. -/
theorem goodFields_mem {l : List (String × Value)} (h : goodFields l = true) :
    ∀ p ∈ l,
      (if isSensitiveField p.1 then jsPrim p.2 else goodVal p.2) = true := by
  induction l with
  | nil => intro p hp; simp at hp
  | cons a rest ih =>
    obtain ⟨k, v⟩ := a
    rw [goodFields, Bool.and_eq_true] at h
    intro p hp
    rcases List.mem_cons.mp hp with h2 | h2
    · rw [h2]; exact h.1
    · exact ih h.2 p h2

/-- Below the depth limit everything except null/undefined becomes the
depth marker. -/
theorem sanitizeDFS_deep (san : Sanitizer) (fuel : Nat) (v : Value) (d : Nat)
    (hd : san.maxDepth < d) :
    sanitizeDFS san (fuel + 1) v d =
      (match v with
        | .vnull => .vnull
        | .vundef => .vundef
        | _ => .vstr "[MAX_DEPTH_EXCEEDED]") := by
  cases v <;> simp only [sanitizeDFS] <;> first | rfl | rw [if_pos hd]

/-- Unfolding: strings. -/
theorem sanitizeDFS_str (san : Sanitizer) (fuel : Nat) (s : String) (d : Nat)
    (hd : ¬ san.maxDepth < d) :
    sanitizeDFS san (fuel + 1) (.vstr s) d =
      .vstr (sanitizeString san.policy s) := by
  simp only [sanitizeDFS]; rw [if_neg hd]

/-- Unfolding: numbers. -/
theorem sanitizeDFS_num (san : Sanitizer) (fuel : Nat) (n : Int) (d : Nat)
    (hd : ¬ san.maxDepth < d) :
    sanitizeDFS san (fuel + 1) (.vnum n) d = .vnum n := by
  simp only [sanitizeDFS]; rw [if_neg hd]

/-- Unfolding: booleans. -/
theorem sanitizeDFS_bool (san : Sanitizer) (fuel : Nat) (b : Bool) (d : Nat)
    (hd : ¬ san.maxDepth < d) :
    sanitizeDFS san (fuel + 1) (.vbool b) d = .vbool b := by
  simp only [sanitizeDFS]; rw [if_neg hd]

/-- Unfolding: functions. -/
theorem sanitizeDFS_func (san : Sanitizer) (fuel : Nat) (d : Nat)
    (hd : ¬ san.maxDepth < d) :
    sanitizeDFS san (fuel + 1) .vfunc d = .vstr "[Function]" := by
  simp only [sanitizeDFS]; rw [if_neg hd]

/-- Unfolding: dates. -/
theorem sanitizeDFS_date (san : Sanitizer) (fuel : Nat) (d : Nat)
    (hd : ¬ san.maxDepth < d) :
    sanitizeDFS san (fuel + 1) .vdate d = .vdate := by
  simp only [sanitizeDFS]; rw [if_neg hd]

/-- Unfolding: regular expressions. -/
theorem sanitizeDFS_regexp (san : Sanitizer) (fuel : Nat) (d : Nat)
    (hd : ¬ san.maxDepth < d) :
    sanitizeDFS san (fuel + 1) .vregexp d = .vregexp := by
  simp only [sanitizeDFS]; rw [if_neg hd]

/-- Unfolding: buffers. -/
theorem sanitizeDFS_buffer (san : Sanitizer) (fuel : Nat) (d : Nat)
    (hd : ¬ san.maxDepth < d) :
    sanitizeDFS san (fuel + 1) .vbuffer d = .vstr "[Binary Data]" := by
  simp only [sanitizeDFS]; rw [if_neg hd]

/-- Unfolding: promises. -/
theorem sanitizeDFS_promise (san : Sanitizer) (fuel : Nat) (d : Nat)
    (hd : ¬ san.maxDepth < d) :
    sanitizeDFS san (fuel + 1) .vpromise d = .vstr "[Promise]" := by
  simp only [sanitizeDFS]; rw [if_neg hd]

/-- Unfolding: weak maps. -/
theorem sanitizeDFS_weakmap (san : Sanitizer) (fuel : Nat) (d : Nat)
    (hd : ¬ san.maxDepth < d) :
    sanitizeDFS san (fuel + 1) .vweakmap d = .vstr "[WeakMap]" := by
  simp only [sanitizeDFS]; rw [if_neg hd]

/-- Unfolding: weak sets. -/
theorem sanitizeDFS_weakset (san : Sanitizer) (fuel : Nat) (d : Nat)
    (hd : ¬ san.maxDepth < d) :
    sanitizeDFS san (fuel + 1) .vweakset d = .vstr "[WeakSet]" := by
  simp only [sanitizeDFS]; rw [if_neg hd]

/-- Unfolding: arrays. -/
theorem sanitizeDFS_arr (san : Sanitizer) (fuel : Nat) (elems : List Value)
    (d : Nat) (hd : ¬ san.maxDepth < d) :
    sanitizeDFS san (fuel + 1) (.varr elems) d =
      .varr (elems.map (fun x => sanitizeDFS san fuel x (d + 1))) := by
  simp only [sanitizeDFS]; rw [if_neg hd]

/-- Unfolding: maps. -/
theorem sanitizeDFS_map (san : Sanitizer) (fuel : Nat)
    (entries : List (Value × Value)) (d : Nat) (hd : ¬ san.maxDepth < d) :
    sanitizeDFS san (fuel + 1) (.vmap entries) d =
      .vmap (entries.foldl (fun acc kv =>
        jsMapSet acc (sanitizeDFS san fuel kv.1 (d + 1))
          (sanitizeDFS san fuel kv.2 (d + 1))) []) := by
  simp only [sanitizeDFS]; rw [if_neg hd]

/-- Unfolding: sets. -/
theorem sanitizeDFS_set (san : Sanitizer) (fuel : Nat) (elems : List Value)
    (d : Nat) (hd : ¬ san.maxDepth < d) :
    sanitizeDFS san (fuel + 1) (.vset elems) d =
      .vset (elems.foldl (fun acc x =>
        jsSetAdd acc (sanitizeDFS san fuel x (d + 1))) []) := by
  simp only [sanitizeDFS]; rw [if_neg hd]

/-- Unfolding: plain objects. -/
theorem sanitizeDFS_objPlain (san : Sanitizer) (fuel : Nat)
    (fields : List (String × Value)) (d : Nat) (hd : ¬ san.maxDepth < d) :
    sanitizeDFS san (fuel + 1) (.vobj fields "Object") d =
      .vobj (fields.map (fun kv =>
        (kv.1, if isSensitiveField kv.1 then Value.vstr (maskValue kv.2)
          else sanitizeDFS san fuel kv.2 (d + 1)))) "Object" := by
  simp only [sanitizeDFS]
  rw [if_neg hd]
  simp

/-- One sanitization pass is a fixpoint of a second pass on good values,
at every fuel and depth. -/
theorem sanIdem :
    ∀ (fuel : Nat) (v : Value) (d : Nat), goodVal v = true →
      sanitizeDFS prodSanitizer fuel (sanitizeDFS prodSanitizer fuel v d) d =
        sanitizeDFS prodSanitizer fuel v d := by
  intro fuel
  induction fuel with
  | zero => intro v d _; rfl
  | succ fuel ih =>
    intro v d hg
    by_cases hd : prodSanitizer.maxDepth < d
    · rw [sanitizeDFS_deep prodSanitizer fuel v d hd]
      cases v <;> first | rfl | (simp only [sanitizeDFS]; rw [if_pos hd])
    · cases v with
      | vnull => rfl
      | vundef => rfl
      | vbool b =>
        rw [sanitizeDFS_bool _ _ _ _ hd, sanitizeDFS_bool _ _ _ _ hd]
      | vnum n =>
        rw [sanitizeDFS_num _ _ _ _ hd, sanitizeDFS_num _ _ _ _ hd]
      | vdate => rw [sanitizeDFS_date _ _ _ hd, sanitizeDFS_date _ _ _ hd]
      | vregexp =>
        rw [sanitizeDFS_regexp _ _ _ hd, sanitizeDFS_regexp _ _ _ hd]
      | vstr s =>
        rw [sanitizeDFS_str _ _ _ _ hd, sanitizeDFS_str _ _ _ _ hd]
        have hg' : strFix prodSanitizer.policy s = true := by
          simpa [goodVal] using hg
        rw [strFix] at hg'
        rw [eq_of_beq hg']
      | vfunc =>
        rw [sanitizeDFS_func _ _ _ hd, sanitizeDFS_str _ _ _ _ hd,
          marker_func_fix]
      | vbuffer =>
        rw [sanitizeDFS_buffer _ _ _ hd, sanitizeDFS_str _ _ _ _ hd,
          marker_binary_fix]
      | vpromise =>
        rw [sanitizeDFS_promise _ _ _ hd, sanitizeDFS_str _ _ _ _ hd,
          marker_promise_fix]
      | vweakmap =>
        rw [sanitizeDFS_weakmap _ _ _ hd, sanitizeDFS_str _ _ _ _ hd,
          marker_weakmap_fix]
      | vweakset =>
        rw [sanitizeDFS_weakset _ _ _ hd, sanitizeDFS_str _ _ _ _ hd,
          marker_weakset_fix]
      | verror name msg stack => simp [goodVal] at hg
      | varr elems =>
        have hgl : goodList elems = true := by simpa [goodVal] using hg
        rw [sanitizeDFS_arr _ _ _ _ hd, sanitizeDFS_arr _ _ _ _ hd,
          List.map_map]
        congr 1
        apply List.map_congr_left
        intro x hx
        exact ih x (d + 1) (goodList_mem hgl x hx)
      | vset elems =>
        have hgl : goodList elems = true := by simpa [goodVal] using hg
        rw [sanitizeDFS_set _ _ _ _ hd, sanitizeDFS_set _ _ _ _ hd]
        congr 1
        have hmem : ∀ y ∈ elems.foldl (fun acc x =>
            jsSetAdd acc (sanitizeDFS prodSanitizer fuel x (d + 1))) [],
            sanitizeDFS prodSanitizer fuel y (d + 1) = y := by
          apply foldl_jsSetAdd_mem
            (fun y => sanitizeDFS prodSanitizer fuel y (d + 1) = y)
          · intro y hy; simp at hy
          · intro x hx
            exact ih x (d + 1) (goodList_mem hgl x hx)
        have hwf : setWF (elems.foldl (fun acc x =>
            jsSetAdd acc (sanitizeDFS prodSanitizer fuel x (d + 1))) []) := by
          apply foldl_jsSetAdd_wf
          exact List.Pairwise.nil
        refine Eq.trans (foldl_congr_mem
          (elems.foldl (fun acc x =>
            jsSetAdd acc (sanitizeDFS prodSanitizer fuel x (d + 1))) [])
          (fun acc x => jsSetAdd acc (sanitizeDFS prodSanitizer fuel x (d + 1)))
          (fun acc x => jsSetAdd acc x) []
          (fun b x hx => by
            dsimp only
            rw [hmem x hx])) ?_
        refine Eq.trans (foldl_jsSetAdd_refold _ [] (by simpa using hwf)) ?_
        simp
      | vmap entries =>
        have hgp : goodPairs entries = true := by simpa [goodVal] using hg
        rw [sanitizeDFS_map _ _ _ _ hd, sanitizeDFS_map _ _ _ _ hd]
        congr 1
        have hmem : ∀ p ∈ entries.foldl (fun acc kv =>
            jsMapSet acc (sanitizeDFS prodSanitizer fuel kv.1 (d + 1))
              (sanitizeDFS prodSanitizer fuel kv.2 (d + 1))) [],
            sanitizeDFS prodSanitizer fuel p.1 (d + 1) = p.1 ∧
            sanitizeDFS prodSanitizer fuel p.2 (d + 1) = p.2 := by
          apply foldl_jsMapSet_mem
            (fun y => sanitizeDFS prodSanitizer fuel y (d + 1) = y)
          · intro p hp; simp at hp
          · intro kv hkv
            exact ⟨ih kv.1 (d + 1) (goodPairs_mem hgp kv hkv).1,
              ih kv.2 (d + 1) (goodPairs_mem hgp kv hkv).2⟩
        have hwf : mapWF (entries.foldl (fun acc kv =>
            jsMapSet acc (sanitizeDFS prodSanitizer fuel kv.1 (d + 1))
              (sanitizeDFS prodSanitizer fuel kv.2 (d + 1))) []) := by
          apply foldl_jsMapSet_wf
          exact List.Pairwise.nil
        refine Eq.trans (foldl_congr_mem
          (entries.foldl (fun acc kv =>
            jsMapSet acc (sanitizeDFS prodSanitizer fuel kv.1 (d + 1))
              (sanitizeDFS prodSanitizer fuel kv.2 (d + 1))) [])
          (fun acc kv => jsMapSet acc
            (sanitizeDFS prodSanitizer fuel kv.1 (d + 1))
            (sanitizeDFS prodSanitizer fuel kv.2 (d + 1)))
          (fun acc kv => jsMapSet acc kv.1 kv.2) []
          (fun b kv hkv => by
            dsimp only
            rw [(hmem kv hkv).1, (hmem kv hkv).2])) ?_
        refine Eq.trans (foldl_jsMapSet_refold _ [] (by simpa using hwf)) ?_
        simp
      | vobj fields ctor =>
        have hg2 : (ctor == "Object") = true ∧ goodFields fields = true := by
          have h2 := hg
          simp only [goodVal, Bool.and_eq_true] at h2
          exact h2
        have hc : ctor = "Object" := eq_of_beq hg2.1
        subst hc
        rw [sanitizeDFS_objPlain _ _ _ _ hd, sanitizeDFS_objPlain _ _ _ _ hd,
          List.map_map]
        congr 1
        apply List.map_congr_left
        intro kv hkv
        simp only [Function.comp_apply]
        by_cases hs : isSensitiveField kv.1 = true
        · have hp : jsPrim kv.2 = true := by
            have h3 := goodFields_mem hg2.2 kv hkv
            rw [if_pos hs] at h3
            exact h3
          simp only [hs, if_true]
          rw [maskIdem kv.2 hp]
        · rw [Bool.not_eq_true] at hs
          simp only [hs, Bool.false_eq_true, if_false]
          rw [ih kv.2 (d + 1) ?_]
          have h3 := goodFields_mem hg2.2 kv hkv
          rw [if_neg (by rw [hs]; simp)] at h3
          exact h3

/-- A sensitive key holding a non-primitive value. -/
def c6val : Value := .vobj [("password", .vobj [] "Object")] "Object"

/-- C6 counterexample: under the default production policy, sanitizing
`{password: {}}` masks the object-valued sensitive field to
`"***[MASKED]***"`, and a second pass re-masks that string to `"*****"` —
`sanitize (sanitize v)` differs from `sanitize v`, so sanitization is not
idempotent.  (The claim's justification also fails: the field-level mask
output is itself re-masked.) -/
theorem C6_idempotence_cex :
    sanitize prodSanitizer c6val =
      .vobj [("password", .vstr "***[MASKED]***")] "Object" ∧
    sanitize prodSanitizer (sanitize prodSanitizer c6val) =
      .vobj [("password", .vstr "*****")] "Object" ∧
    sanitize prodSanitizer (sanitize prodSanitizer c6val) ≠
      sanitize prodSanitizer c6val := by
  have h1 : sanitize prodSanitizer c6val =
      .vobj [("password", .vstr "***[MASKED]***")] "Object" := by rfl
  have h2 : sanitize prodSanitizer (sanitize prodSanitizer c6val) =
      .vobj [("password", .vstr "*****")] "Object" := by rfl
  refine ⟨h1, h2, ?_⟩
  rw [h2, h1]
  simp

/-- C6 (amended): double sanitization equals single sanitization under the
default production policy for every `goodVal` value — no `Error` nodes,
only plain objects, sensitive-keyed fields primitive, and each string's
sanitized form a fixpoint of the rule sweep.  In general the claim fails
(see the counterexample): the mask `"***[MASKED]***"` of a non-primitive
sensitive field is re-masked to `"*****"` by a second pass. -/
theorem C6_sanitize_idempotent_on_good (v : Value) (h : goodVal v = true) :
    sanitize prodSanitizer (sanitize prodSanitizer v) =
      sanitize prodSanitizer v := by
  rw [sanitize, sanitize]
  have hc : (!prodSanitizer.policy.enabled ||
      prodSanitizer.policy.mode == PolicyMode.development) = false := rfl
  rw [hc]
  simp only [Bool.false_eq_true, if_false]
  exact sanIdem (prodSanitizer.maxDepth + 2) v 0 h

/-- A good value exercising a sensitive field, a masked email and a free
string. -/
def c6witVal : Value :=
  .vobj [("pin", .vstr "12"), ("email", .vstr "a@b.io"),
    ("note", .vstr "hi")] "Object"

/-- Witness for `C6_sanitize_idempotent_on_good`. -/
theorem C6_sanitize_idempotent_on_good_witness :
    goodVal c6witVal = true ∧
    sanitize prodSanitizer (sanitize prodSanitizer c6witVal) =
      sanitize prodSanitizer c6witVal :=
  ⟨by decide, C6_sanitize_idempotent_on_good c6witVal (by decide)⟩

/-! ## Heap model: shared and cyclic value graphs -/

/-- JS values with references: primitives inline, objects by address. -/
inductive JSVal where
  | jnull
  | jundef
  | jbool (b : Bool)
  | jnum (n : Int)
  | jstr (s : String)
  | ref (a : Nat)
deriving DecidableEq

/-- Heap nodes — the object kinds the sanitizers dispatch on. -/
inductive HNode where
  | harr (elems : List JSVal)
  | hmap (entries : List (JSVal × JSVal))
  | hset (elems : List JSVal)
  | hobj (fields : List (String × JSVal)) (ctor : String)
  | hfunc
  | hdate
  | hregexp
  | herror (name msg : String) (stack : Option String)
  | hbuffer
  | hpromise
  | hweakmap
  | hweakset
deriving DecidableEq

/-- A heap maps addresses to nodes. -/
def Heap : Type := List (Nat × HNode)

/-- Dereference (JS references are never dangling; the default is a plain
empty object and is unreachable on well-formed heaps). -/
def heapGet (h : Heap) (a : Nat) : HNode :=
  (List.lookup a h).getD (.hobj [] "Object")

/-- `maskValue` on a heap value: `typeof` alone decides, so references
(always objects or functions here) yield the object mask. -/
def maskValueJ : JSVal → String
  | .jnull => "***"
  | .jundef => "***"
  | .jstr s =>
    if s.data.length ≤ 3 then "***"
    else String.mk [s.data.headD '*', '*', '*', '*', s.data.getLastD '*']
  | .jnum _ => "***"
  | .jbool _ => "***"
  | .ref _ => "***[MASKED]***"

/-- Children of an array/set, left to right, threading the visited set
through the per-child sanitizer `f`. -/
def hlistGo (f : JSVal → List Nat → Value × List Nat) :
    List JSVal → List Nat → List Value × List Nat
  | [], vis => ([], vis)
  | x :: rest, vis =>
    let r1 := f x vis
    let r2 := hlistGo f rest r1.2
    (r1.1 :: r2.1, r2.2)

/-- Map entries: key then value then the rest, threading visited. -/
def hpairsGo (f : JSVal → List Nat → Value × List Nat) :
    List (JSVal × JSVal) → List Nat → List (Value × Value) × List Nat
  | [], vis => ([], vis)
  | kv :: rest, vis =>
    let rk := f kv.1 vis
    let rv := f kv.2 rk.2
    let rr := hpairsGo f rest rv.2
    ((rk.1, rv.1) :: rr.1, rr.2)

/-- Object fields: sensitive keys masked without recursion. -/
def hobjGo (f : JSVal → List Nat → Value × List Nat) :
    List (String × JSVal) → List Nat → List (String × Value) × List Nat
  | [], vis => ([], vis)
  | kv :: rest, vis =>
    if isSensitiveField kv.1 then
      let r := hobjGo f rest vis
      ((kv.1, Value.vstr (maskValueJ kv.2)) :: r.1, r.2)
    else
      let r1 := f kv.2 vis
      let r2 := hobjGo f rest r1.2
      ((kv.1, r1.1) :: r2.1, r2.2)

/-- `DataSanitizer.sanitizeDFS` (v1, `data-sanitizer.ts`) on heap values.
Source dispatch order: null/undefined, depth guard, primitives, the
`visited.has` check, functions, Date/RegExp/Error/Buffer (not marked
visited), then `visited.set(data)` followed by Array/Map/Set, the weak
collections, Promise and plain objects — so weak collections and promises
ARE marked visited.  The visited set is threaded through children and
never shrinks (the source's `finally` deliberately keeps entries).
`fuel` only bounds recursion as in the tree model. -/
def sanitizeHDFS (san : Sanitizer) (h : Heap) :
    Nat → JSVal → List Nat → Nat → Value × List Nat
  | 0, _, vis, _ => (.vnull, vis)
  | fuel + 1, v, vis, depth =>
    match v with
    | .jnull => (.vnull, vis)
    | .jundef => (.vundef, vis)
    | .jstr s =>
      if san.maxDepth < depth then (.vstr "[MAX_DEPTH_EXCEEDED]", vis)
      else (.vstr (sanitizeString san.policy s), vis)
    | .jnum n =>
      if san.maxDepth < depth then (.vstr "[MAX_DEPTH_EXCEEDED]", vis)
      else (.vnum n, vis)
    | .jbool b =>
      if san.maxDepth < depth then (.vstr "[MAX_DEPTH_EXCEEDED]", vis)
      else (.vbool b, vis)
    | .ref a =>
      if san.maxDepth < depth then (.vstr "[MAX_DEPTH_EXCEEDED]", vis)
      else if vis.contains a then (.vstr "[CIRCULAR]", vis)
      else
        match heapGet h a with
        | .hfunc => (.vstr "[Function]", vis)
        | .hdate => (.vdate, vis)
        | .hregexp => (.vregexp, vis)
        | .herror name msg stack =>
          (.vobj [("name", .vstr name),
            ("message", .vstr (sanitizeString san.policy msg)),
            ("stack", match stack with
              | some s => .vstr (sanitizeString san.policy s)
              | none => .vundef)] "Object", vis)
        | .hbuffer => (.vstr "[Binary Data]", vis)
        | .harr elems =>
          let r := hlistGo (fun x vs => sanitizeHDFS san h fuel x vs (depth + 1))
            elems (a :: vis)
          (.varr r.1, r.2)
        | .hmap entries =>
          let r := hpairsGo (fun x vs => sanitizeHDFS san h fuel x vs (depth + 1))
            entries (a :: vis)
          (.vmap (r.1.foldl (fun acc kv => jsMapSet acc kv.1 kv.2) []), r.2)
        | .hset elems =>
          let r := hlistGo (fun x vs => sanitizeHDFS san h fuel x vs (depth + 1))
            elems (a :: vis)
          (.vset (r.1.foldl (fun acc x => jsSetAdd acc x) []), r.2)
        | .hweakmap => (.vstr "[WeakMap]", a :: vis)
        | .hweakset => (.vstr "[WeakSet]", a :: vis)
        | .hpromise => (.vstr "[Promise]", a :: vis)
        | .hobj fields ctor =>
          let r := hobjGo (fun x vs => sanitizeHDFS san h fuel x vs (depth + 1))
            fields (a :: vis)
          (.vobj (if ctor == "Object" then r.1
            else r.1 ++ [("__type", Value.vstr ctor)]) "Object", r.2)

/-- Entry point of the v1 heap sanitizer (the enabled-production path of
`sanitize`; the disabled/development gate returns the input reference in
both implementations). -/
def sanitizeH (san : Sanitizer) (h : Heap) (v : JSVal) : Value :=
  (sanitizeHDFS san h (san.maxDepth + 2) v [] 0).1

/-- `DataSanitizer.sanitizeRecursive` (v2, `data-santizer2.ts`) on heap
values.  Base checks and the circular check are as in v1; dispatch then
walks the strategy registry (Function, Date, RegExp, Error, Buffer,
Promise, WeakCollection, Array, Map, Set, Object).  Only the Array, Map,
Set and Object strategies call `visited.set`; Promise and the weak
collections are NOT marked visited — the sole structural difference from
v1's `sanitizeDFS`. -/
def sanitize2HDFS (san : Sanitizer) (h : Heap) :
    Nat → JSVal → List Nat → Nat → Value × List Nat
  | 0, _, vis, _ => (.vnull, vis)
  | fuel + 1, v, vis, depth =>
    match v with
    | .jnull => (.vnull, vis)
    | .jundef => (.vundef, vis)
    | .jstr s =>
      if san.maxDepth < depth then (.vstr "[MAX_DEPTH_EXCEEDED]", vis)
      else (.vstr (sanitizeString san.policy s), vis)
    | .jnum n =>
      if san.maxDepth < depth then (.vstr "[MAX_DEPTH_EXCEEDED]", vis)
      else (.vnum n, vis)
    | .jbool b =>
      if san.maxDepth < depth then (.vstr "[MAX_DEPTH_EXCEEDED]", vis)
      else (.vbool b, vis)
    | .ref a =>
      if san.maxDepth < depth then (.vstr "[MAX_DEPTH_EXCEEDED]", vis)
      else if vis.contains a then (.vstr "[CIRCULAR]", vis)
      else
        match heapGet h a with
        | .hfunc => (.vstr "[Function]", vis)
        | .hdate => (.vdate, vis)
        | .hregexp => (.vregexp, vis)
        | .herror name msg stack =>
          (.vobj [("name", .vstr name),
            ("message", .vstr (sanitizeString san.policy msg)),
            ("stack", match stack with
              | some s => .vstr (sanitizeString san.policy s)
              | none => .vundef)] "Object", vis)
        | .hbuffer => (.vstr "[Binary Data]", vis)
        | .hpromise => (.vstr "[Promise]", vis)
        | .hweakmap => (.vstr "[WeakMap]", vis)
        | .hweakset => (.vstr "[WeakSet]", vis)
        | .harr elems =>
          let r := hlistGo (fun x vs => sanitize2HDFS san h fuel x vs (depth + 1))
            elems (a :: vis)
          (.varr r.1, r.2)
        | .hmap entries =>
          let r := hpairsGo (fun x vs => sanitize2HDFS san h fuel x vs (depth + 1))
            entries (a :: vis)
          (.vmap (r.1.foldl (fun acc kv => jsMapSet acc kv.1 kv.2) []), r.2)
        | .hset elems =>
          let r := hlistGo (fun x vs => sanitize2HDFS san h fuel x vs (depth + 1))
            elems (a :: vis)
          (.vset (r.1.foldl (fun acc x => jsSetAdd acc x) []), r.2)
        | .hobj fields ctor =>
          let r := hobjGo (fun x vs => sanitize2HDFS san h fuel x vs (depth + 1))
            fields (a :: vis)
          (.vobj (if ctor == "Object" then r.1
            else r.1 ++ [("__type", Value.vstr ctor)]) "Object", r.2)

/-- Entry point of the v2 heap sanitizer (the production path of v2's
`sanitize`, whose disabled/development gate matches v1's). -/
def sanitize2H (san : Sanitizer) (h : Heap) (v : JSVal) : Value :=
  (sanitize2HDFS san h (san.maxDepth + 2) v [] 0).1

/-! ## Acyclicity and promise-freedom of a heap -/

/-- Addresses occurring directly in a heap value. -/
def refsOf : JSVal → List Nat
  | .ref a => [a]
  | _ => []

/-- Addresses a node points to. -/
def nodeRefs : HNode → List Nat
  | .harr elems => (elems.map refsOf).flatten
  | .hmap entries => (entries.map (fun kv => refsOf kv.1 ++ refsOf kv.2)).flatten
  | .hset elems => (elems.map refsOf).flatten
  | .hobj fields _ => (fields.map (fun kv => refsOf kv.2)).flatten
  | _ => []

/-- `reachesIn h fuel src tgt`: a nonempty pointer path of length at most
`fuel` from `src` to `tgt`. -/
def reachesIn (h : Heap) : Nat → Nat → Nat → Bool
  | 0, _, _ => false
  | fuel + 1, src, tgt =>
    (nodeRefs (heapGet h src)).any (fun r => r == tgt || reachesIn h fuel r tgt)

/-- A heap is acyclic when no allocated address reaches itself. -/
def acyclicHeap (h : Heap) : Bool :=
  h.all (fun p => !reachesIn h (h.length + 1) p.1 p.1)

/-- No promise / weak-collection nodes in the heap. -/
def heapNoPW (h : Heap) : Bool :=
  h.all (fun p =>
    match p.2 with
    | .hpromise => false
    | .hweakmap => false
    | .hweakset => false
    | _ => true)

/-- An acyclic two-node heap where the root's two fields alias one child. -/
def c7heap : Heap :=
  [(0, .hobj [("a", .ref 1), ("b", .ref 1)] "Object"),
   (1, .hobj [("x", .jnum 1)] "Object")]

/-- C7 counterexample. -/
theorem C7_sibling_alias_circular_cex :
    acyclicHeap c7heap = true ∧
    sanitizeH prodSanitizer c7heap (.ref 0) =
      .vobj [("a", .vobj [("x", .vnum 1)] "Object"),
        ("b", .vstr "[CIRCULAR]")] "Object" ∧
    Value.vstr "[CIRCULAR]" ≠ Value.vobj [("x", .vnum 1)] "Object" := by
  refine ⟨by decide, rfl, by simp⟩

theorem hlistGo_vis_mono (f : JSVal → List Nat → Value × List Nat)
    (hf : ∀ x vis, ∀ y ∈ vis, y ∈ (f x vis).2) :
    ∀ (l : List JSVal) (vis : List Nat), ∀ y ∈ vis, y ∈ (hlistGo f l vis).2 := by
  intro l
  induction l with
  | nil => intro vis y hy; simpa [hlistGo] using hy
  | cons x rest ih =>
    intro vis y hy
    simp only [hlistGo]
    exact ih _ y (hf x vis y hy)

theorem hpairsGo_vis_mono (f : JSVal → List Nat → Value × List Nat)
    (hf : ∀ x vis, ∀ y ∈ vis, y ∈ (f x vis).2) :
    ∀ (l : List (JSVal × JSVal)) (vis : List Nat), ∀ y ∈ vis,
      y ∈ (hpairsGo f l vis).2 := by
  intro l
  induction l with
  | nil => intro vis y hy; simpa [hpairsGo] using hy
  | cons kv rest ih =>
    intro vis y hy
    simp only [hpairsGo]
    exact ih _ y (hf kv.2 _ y (hf kv.1 vis y hy))

theorem hobjGo_vis_mono (f : JSVal → List Nat → Value × List Nat)
    (hf : ∀ x vis, ∀ y ∈ vis, y ∈ (f x vis).2) :
    ∀ (l : List (String × JSVal)) (vis : List Nat), ∀ y ∈ vis,
      y ∈ (hobjGo f l vis).2 := by
  intro l
  induction l with
  | nil => intro vis y hy; simpa [hobjGo] using hy
  | cons kv rest ih =>
    intro vis y hy
    simp only [hobjGo]
    split
    · exact ih _ y hy
    · exact ih _ y (hf kv.2 vis y hy)

/-- The v1 visited set only ever grows: no address is removed. -/
theorem sanitizeHDFS_vis_mono (san : Sanitizer) (h : Heap) :
    ∀ (fuel : Nat) (v : JSVal) (vis : List Nat) (d : Nat), ∀ y ∈ vis,
      y ∈ (sanitizeHDFS san h fuel v vis d).2 := by
  intro fuel
  induction fuel with
  | zero => intro v vis d y hy; simpa [sanitizeHDFS] using hy
  | succ fuel ih =>
    intro v vis d y hy
    have hf : ∀ x vs, ∀ z ∈ vs, z ∈ (sanitizeHDFS san h fuel x vs (d + 1)).2 :=
      fun x vs z hz => ih x vs (d + 1) z hz
    cases v with
    | jnull => simpa [sanitizeHDFS] using hy
    | jundef => simpa [sanitizeHDFS] using hy
    | jstr s => simp only [sanitizeHDFS]; split <;> exact hy
    | jnum n => simp only [sanitizeHDFS]; split <;> exact hy
    | jbool b => simp only [sanitizeHDFS]; split <;> exact hy
    | ref a =>
      simp only [sanitizeHDFS]
      split
      · exact hy
      split
      · exact hy
      cases heapGet h a with
      | harr elems =>
        exact hlistGo_vis_mono _ hf elems (a :: vis) y (List.mem_cons_of_mem a hy)
      | hmap entries =>
        exact hpairsGo_vis_mono _ hf entries (a :: vis) y (List.mem_cons_of_mem a hy)
      | hset elems =>
        exact hlistGo_vis_mono _ hf elems (a :: vis) y (List.mem_cons_of_mem a hy)
      | hobj fields ctor =>
        exact hobjGo_vis_mono _ hf fields (a :: vis) y (List.mem_cons_of_mem a hy)
      | hfunc => exact hy
      | hdate => exact hy
      | hregexp => exact hy
      | herror name msg stack => exact hy
      | hbuffer => exact hy
      | hpromise => exact List.mem_cons_of_mem a hy
      | hweakmap => exact List.mem_cons_of_mem a hy
      | hweakset => exact List.mem_cons_of_mem a hy

/-- Any already-visited address is replaced by the circular marker. -/
theorem sanitizeHDFS_revisit (san : Sanitizer) (h : Heap) (fuel a : Nat)
    (vis : List Nat) (d : Nat) (hmem : vis.contains a = true)
    (hd : ¬ san.maxDepth < d) :
    sanitizeHDFS san h (fuel + 1) (.ref a) vis d = (.vstr "[CIRCULAR]", vis) := by
  simp only [sanitizeHDFS]
  rw [if_neg hd, if_pos hmem]

theorem heapGet_noPW (h : Heap) (hpw : heapNoPW h = true) (a : Nat) :
    heapGet h a ≠ .hpromise ∧ heapGet h a ≠ .hweakmap ∧ heapGet h a ≠ .hweakset := by
  induction h with
  | nil => simp [heapGet, List.lookup]
  | cons p rest ih =>
    simp only [heapNoPW, List.all_cons, Bool.and_eq_true] at hpw
    simp only [heapGet, List.lookup]
    split
    · cases hp2 : p.2 <;> simp_all
    · exact ih hpw.2

theorem hlistGo_congr (f g : JSVal → List Nat → Value × List Nat)
    (hfg : ∀ x vis, f x vis = g x vis) :
    ∀ (l : List JSVal) (vis : List Nat), hlistGo f l vis = hlistGo g l vis := by
  intro l
  induction l with
  | nil => intro vis; rfl
  | cons x rest ih => intro vis; simp only [hlistGo, hfg, ih]

theorem hpairsGo_congr (f g : JSVal → List Nat → Value × List Nat)
    (hfg : ∀ x vis, f x vis = g x vis) :
    ∀ (l : List (JSVal × JSVal)) (vis : List Nat),
      hpairsGo f l vis = hpairsGo g l vis := by
  intro l
  induction l with
  | nil => intro vis; rfl
  | cons kv rest ih => intro vis; simp only [hpairsGo, hfg, ih]

theorem hobjGo_congr (f g : JSVal → List Nat → Value × List Nat)
    (hfg : ∀ x vis, f x vis = g x vis) :
    ∀ (l : List (String × JSVal)) (vis : List Nat),
      hobjGo f l vis = hobjGo g l vis := by
  intro l
  induction l with
  | nil => intro vis; rfl
  | cons kv rest ih =>
    intro vis
    simp only [hobjGo]
    split
    · simp only [ih]
    · simp only [hfg, ih]

/-- On heaps with no promise or weak-collection nodes the two DFS
sanitizers agree at every fuel, visited set and depth. -/
theorem sanitizeHDFS_eq_v2 (san : Sanitizer) (h : Heap)
    (hpw : heapNoPW h = true) :
    ∀ (fuel : Nat) (v : JSVal) (vis : List Nat) (d : Nat),
      sanitizeHDFS san h fuel v vis d = sanitize2HDFS san h fuel v vis d := by
  intro fuel
  induction fuel with
  | zero => intro v vis d; rfl
  | succ fuel ih =>
    intro v vis d
    have hfg : ∀ x vs, sanitizeHDFS san h fuel x vs (d + 1) =
        sanitize2HDFS san h fuel x vs (d + 1) := fun x vs => ih x vs (d + 1)
    cases v with
    | jnull => rfl
    | jundef => rfl
    | jstr s => rfl
    | jnum n => rfl
    | jbool b => rfl
    | ref a =>
      simp only [sanitizeHDFS, sanitize2HDFS]
      split
      · rfl
      split
      · rfl
      have hno := heapGet_noPW h hpw a
      cases hget : heapGet h a with
      | hpromise => exact absurd hget hno.1
      | hweakmap => exact absurd hget hno.2.1
      | hweakset => exact absurd hget hno.2.2
      | harr elems =>
        dsimp only
        rw [hlistGo_congr _ _ hfg elems (a :: vis)]
      | hmap entries =>
        dsimp only
        rw [hpairsGo_congr _ _ hfg entries (a :: vis)]
      | hset elems =>
        dsimp only
        rw [hlistGo_congr _ _ hfg elems (a :: vis)]
      | hobj fields ctor =>
        dsimp only
        rw [hobjGo_congr _ _ hfg fields (a :: vis)]
      | hfunc => rfl
      | hdate => rfl
      | hregexp => rfl
      | herror name msg stack => rfl
      | hbuffer => rfl

/-- C7 (amended): the visited set of `sanitizeDFS` is not "exactly the
current DFS path" — it only grows (the source never deletes entries), and
any re-encountered address is replaced by "[CIRCULAR]" below the depth
cap, even when the second encounter is through an acyclic sibling
reference rather than a true cycle. -/
theorem C7_visited_grows_and_revisit_circular :
    (∀ (san : Sanitizer) (h : Heap) (fuel : Nat) (v : JSVal)
       (vis : List Nat) (d : Nat), ∀ y ∈ vis,
       y ∈ (sanitizeHDFS san h fuel v vis d).2) ∧
    (∀ (san : Sanitizer) (h : Heap) (fuel a : Nat) (vis : List Nat) (d : Nat),
       vis.contains a = true → ¬ san.maxDepth < d →
       sanitizeHDFS san h (fuel + 1) (.ref a) vis d =
         (.vstr "[CIRCULAR]", vis)) :=
  ⟨fun san h fuel v vis d y hy => sanitizeHDFS_vis_mono san h fuel v vis d y hy,
   fun san h fuel a vis d hmem hd => sanitizeHDFS_revisit san h fuel a vis d hmem hd⟩

theorem C7_visited_grows_and_revisit_circular_witness :
    (5 ∈ [5] ∧
      5 ∈ (sanitizeHDFS prodSanitizer c7heap 52 (.ref 0) [5] 0).2) ∧
    ((List.contains [1] 1 = true ∧ ¬ prodSanitizer.maxDepth < 0) ∧
      sanitizeHDFS prodSanitizer c7heap 1 (.ref 1) [1] 0 =
        (.vstr "[CIRCULAR]", [1])) :=
  ⟨⟨by decide,
    C7_visited_grows_and_revisit_circular.1 prodSanitizer c7heap 52 (.ref 0)
      [5] 0 5 (by decide)⟩,
   ⟨⟨by decide, by decide⟩,
    C7_visited_grows_and_revisit_circular.2 prodSanitizer c7heap 0 1 [1] 0
      (by decide) (by decide)⟩⟩

/-- A heap whose root array holds two references to one Promise. -/
def c9heap : Heap := [(0, .harr [.ref 1, .ref 1]), (1, .hpromise)]

/-- C9 counterexample. -/
theorem C9_promise_alias_cex :
    sanitizeH prodSanitizer c9heap (.ref 0) =
      .varr [.vstr "[Promise]", .vstr "[CIRCULAR]"] ∧
    sanitize2H prodSanitizer c9heap (.ref 0) =
      .varr [.vstr "[Promise]", .vstr "[Promise]"] ∧
    sanitizeH prodSanitizer c9heap (.ref 0) ≠
      sanitize2H prodSanitizer c9heap (.ref 0) := by
  have h1 : sanitizeH prodSanitizer c9heap (.ref 0) =
      .varr [.vstr "[Promise]", .vstr "[CIRCULAR]"] := rfl
  have h2 : sanitize2H prodSanitizer c9heap (.ref 0) =
      .varr [.vstr "[Promise]", .vstr "[Promise]"] := rfl
  refine ⟨h1, h2, ?_⟩
  rw [h1, h2]
  simp

/-- C9 (amended): on heaps containing no Promise, WeakMap or WeakSet node
the two sanitizer implementations are extensionally equal — at the
`sanitize` entry points and at every fuel, visited set and depth of the
recursive traversals.  (With such nodes they differ: v1 marks them
visited, v2 does not, so later references to the same object diverge.) -/
theorem C9_sanitizers_agree_without_promises (san : Sanitizer) (h : Heap)
    (hpw : heapNoPW h = true) :
    (∀ v, sanitizeH san h v = sanitize2H san h v) ∧
    (∀ (fuel : Nat) (v : JSVal) (vis : List Nat) (d : Nat),
      sanitizeHDFS san h fuel v vis d = sanitize2HDFS san h fuel v vis d) :=
  ⟨fun v => congrArg Prod.fst
      (sanitizeHDFS_eq_v2 san h hpw (san.maxDepth + 2) v [] 0),
   fun fuel v vis d => sanitizeHDFS_eq_v2 san h hpw fuel v vis d⟩

/-- A promise-free heap with sibling sharing and a sensitive field. -/
def c9witHeap : Heap :=
  [(0, .hobj [("a", .ref 1), ("password", .jstr "hunter2"), ("b", .ref 1)] "Object"),
   (1, .harr [.jstr "my password", .jnum 7])]

theorem C9_sanitizers_agree_without_promises_witness :
    heapNoPW c9witHeap = true ∧
    sanitizeH prodSanitizer c9witHeap (.ref 0) =
      sanitize2H prodSanitizer c9witHeap (.ref 0) ∧
    sanitizeHDFS prodSanitizer c9witHeap 52 (.ref 0) [] 0 =
      sanitize2HDFS prodSanitizer c9witHeap 52 (.ref 0) [] 0 :=
  ⟨by decide,
   (C9_sanitizers_agree_without_promises prodSanitizer c9witHeap (by decide)).1
     (.ref 0),
   (C9_sanitizers_agree_without_promises prodSanitizer c9witHeap (by decide)).2
     52 (.ref 0) [] 0⟩
